import Mathlib

/-
  Verification of simongeilfus/PoissonDiskDistribution
  (src/PoissonDiskDistribution.cpp) against its specification.

  Shallow embedding conventions:
  * C++ float values are embedded as rationals (ℚ).  Every concrete input used
    in a theorem below is a dyadic rational, exactly representable as a float,
    so the concrete computations agree with the C++ float computations.
  * The random source (cinder's randFloat/randInt) and the trigonometric pair
    cos/sin are external collaborators of the library; they are passed in as an
    explicit environment.  Env.dir f stands for the float vector
    vec2(cos(randAngle), sin(randAngle)) computed from randAngle = f * M_PI * 2,
    where f is the raw randFloat() result.  Env.ints n is the n-th randInt
    result; the library calls randInt(0, len-1), whose contract returns a value
    in [0, len-1]; the embedding reduces the oracle value mod len, which is the
    identity on contract-satisfying sources.
  * The C++ while loop is embedded with an explicit fuel parameter; a run that
    does not empty its processing list within the given fuel returns none.
  * Machine-integer casts are explicit: float-to-int casts truncate toward
    zero (truncQ), float-to-uint32 casts additionally wrap mod 2^32 (u32),
    int arithmetic wraps two's-complement (wrap32).  Right shifts on int are
    arithmetic shifts, i.e. flooring division (Int.fdiv).
  * cinder's Area (integer rectangle) constructor from Rectf is modelled as a
    per-component cast (truncation); all bounds used in theorems below are
    integer-valued, where every rounding convention agrees.
  * cinder's Rectf::contains is inclusive on all four edges.
-/

namespace PDD

/-- A 2D point (glm::vec2), coordinates as rationals. -/
abbrev Point := ℚ × ℚ

/-- Squared euclidean distance, glm::length2(p - q). -/
def sqDist (p q : Point) : ℚ := (p.1 - q.1) ^ 2 + (p.2 - q.2) ^ 2

/-- Two's-complement wrap of an integer into int32 range (C++ int arithmetic). -/
def wrap32 (z : ℤ) : ℤ := (z + 2 ^ 31) % 2 ^ 32 - 2 ^ 31

/-- C++ float-to-int cast: truncation toward zero. -/
def truncQ (q : ℚ) : ℤ := if 0 ≤ q then ⌊q⌋ else -⌊-q⌋

/-- C++ float-to-uint32_t cast.  For values in [0, 2^32) this is truncation;
    for negative values the C++ behaviour is undefined and we model the
    wrap that the common in-practice lowering produces.  The result is the
    representative in [0, 2^32). -/
def u32 (q : ℚ) : ℤ := truncQ q % 2 ^ 32

/-- ci::Rectf — axis-aligned float rectangle (external collaborator). -/
structure Rect where
  x1 : ℚ
  y1 : ℚ
  x2 : ℚ
  y2 : ℚ

/-- Rectf::contains, inclusive on all edges. -/
def Rect.contains (r : Rect) (p : Point) : Bool :=
  decide (r.x1 ≤ p.1 ∧ p.1 ≤ r.x2 ∧ r.y1 ≤ p.2 ∧ p.2 ≤ r.y2)

/-- Rectf::getCenter. -/
def Rect.getCenter (r : Rect) : Point := ((r.x1 + r.x2) / 2, (r.y1 + r.y2) / 2)

/-- ci::Area — integer rectangle (external collaborator). -/
structure AreaI where
  x1 : ℤ
  y1 : ℤ
  x2 : ℤ
  y2 : ℤ

/-- The Area(Rectf) conversion, modelled as a per-component integer cast. -/
def areaOf (r : Rect) : AreaI :=
  { x1 := truncQ r.x1, y1 := truncQ r.y1, x2 := truncQ r.x2, y2 := truncQ r.y2 }

/-- The spatial grid of the anonymous namespace: a flat vector of cells, the
    cell counts, the offset |upper-left corner|, the (integer) bounds, the
    cell-size exponent mK and mCellSize = 1 << mK. -/
structure Grid where
  cells : List (List Point)
  numCells : ℤ × ℤ
  offset : ℤ × ℤ
  bounds : AreaI
  k : ℕ
  cellSize : ℕ

/-- Grid::resize(bounds, k), which is also the constructor Grid(bounds, k):
    mOffset = abs(UL), mNumCells = ceil(size / cellSize) (computed in float,
    then cast back to ivec2), and numCells.x * numCells.y freshly empty cells.
    A negative cell count yields an empty cell vector (toNat clamps at 0). -/
def Grid.resize (bounds : AreaI) (k : ℕ) : Grid :=
  let cellSize : ℕ := 2 ^ k
  let offset : ℤ × ℤ := (|bounds.x1|, |bounds.y1|)
  let ncx : ℤ := ⌈((bounds.x2 - bounds.x1 : ℤ) : ℚ) / (cellSize : ℚ)⌉
  let ncy : ℤ := ⌈((bounds.y2 - bounds.y1 : ℤ) : ℚ) / (cellSize : ℚ)⌉
  { cells := List.replicate (ncx * ncy).toNat []
    numCells := (ncx, ncy)
    offset := offset
    bounds := bounds
    k := k
    cellSize := cellSize }

/-- The per-axis cell indices computed in Grid::add:
    x = ((uint32_t)position.x + mOffset.x) >> mK (uint32 arithmetic, then
    stored into an int), and likewise for y. -/
def Grid.cellOf (g : Grid) (p : Point) : ℤ × ℤ :=
  (wrap32 (((u32 p.1 + g.offset.1) % 2 ^ 32) / (2 ^ g.k : ℤ)),
   wrap32 (((u32 p.2 + g.offset.2) % 2 ^ 32) / (2 ^ g.k : ℤ)))

/-- The flat index j = x + mNumCells.x * y of Grid::add (int arithmetic). -/
def Grid.flatIndexOf (g : Grid) (p : Point) : ℤ :=
  wrap32 ((g.cellOf p).1 + g.numCells.1 * (g.cellOf p).2)

/-- Grid::add.  The comparison j < mGrid.size() compares the int j against a
    size_t, so a negative j converts to a huge unsigned value and fails the
    test; out-of-range insertions are silently dropped (only logged). -/
def Grid.add (g : Grid) (position : Point) : Grid :=
  let j := g.flatIndexOf position
  if 0 ≤ j ∧ j < (g.cells.length : ℤ) then
    { g with cells := g.cells.set j.toNat (g.cells.getD j.toNat [] ++ [position]) }
  else
    g

/-- The list of integers lo, lo+1, ..., hi-1 (empty when hi ≤ lo); the shape
    of the for loops in Grid::hasNeighbors, whose bounds are non-negative at
    every reachable call (the unsigned casts there are then the identity). -/
def intRange (lo hi : ℤ) : List ℤ :=
  (List.range (hi - lo).toNat).map fun (i : ℕ) => lo + (i : ℤ)

/-- Grid::hasNeighbors(p, radius).  The query square [p - radius, p + radius]
    is truncated to integers (ivec2 casts), clamped to [UL, LR - 1] per axis,
    translated by the offset and arithmetically shifted right by mK to obtain
    the scanned cell range; every point of every scanned cell is compared
    against radius² by strict squared distance.  The shifted operands are
    min/max-clamped to at least UL + |UL| ≥ 0, where the arithmetic shift is
    flooring division, i.e. Euclidean division by the positive 2^mK. -/
def Grid.hasNeighbors (g : Grid) (p : Point) (radius : ℚ) : Bool :=
  let sqRadius := radius * radius
  let rt := truncQ radius
  let pix := truncQ p.1
  let piy := truncQ p.2
  let minx := max (min (pix - rt) (g.bounds.x2 - 1)) g.bounds.x1
  let miny := max (min (piy - rt) (g.bounds.y2 - 1)) g.bounds.y1
  let maxx := max (min (pix + rt) (g.bounds.x2 - 1)) g.bounds.x1
  let maxy := max (min (piy + rt) (g.bounds.y2 - 1)) g.bounds.y1
  let minCellx := (minx + g.offset.1) / (2 ^ g.k : ℤ)
  let minCelly := (miny + g.offset.2) / (2 ^ g.k : ℤ)
  let maxCellx := min (1 + (maxx + g.offset.1) / (2 ^ g.k : ℤ)) g.numCells.1
  let maxCelly := min (1 + (maxy + g.offset.2) / (2 ^ g.k : ℤ)) g.numCells.2
  (intRange minCelly maxCelly).any fun y =>
    (intRange minCellx maxCellx).any fun x =>
      (g.cells.getD (x + g.numCells.1 * y).toNat []).any fun cell =>
        decide (sqDist p cell < sqRadius)

/-- All points currently stored in the grid. -/
def Grid.stored (g : Grid) : List Point := g.cells.foldr (fun c acc => c ++ acc) []

/-- The external collaborators of a run: the random source (floats is the
    stream of randFloat() results, ints the stream of randInt results) and
    dir f = (cos(f * 2π), sin(f * 2π)) computed by the float math library. -/
structure Env where
  floats : ℕ → ℚ
  ints : ℕ → ℕ
  dir : ℚ → ℚ × ℚ

/-- The mutable state of one run: the processing list, the output list, the
    grid, and the positions reached in the two random streams. -/
structure St where
  processingList : List Point
  outputList : List Point
  grid : Grid
  nf : ℕ
  ni : ℕ

/-- The inner candidate loop of the constant-separation variant: spawn n
    points in the annulus around center; each candidate draws a radius
    separation * (1 + randFloat()) and an angle, and is kept iff it is inside
    bounds and has no stored neighbor strictly within separation. -/
def spawn1 (env : Env) (separation : ℚ) (bounds : Rect) (center : Point) :
    ℕ → St → St
  | 0, st => st
  | n + 1, st =>
    let randRadius := separation * (1 + env.floats st.nf)
    let d := env.dir (env.floats (st.nf + 1))
    let newPoint : Point := (center.1 + d.1 * randRadius, center.2 + d.2 * randRadius)
    let st1 : St := { st with nf := st.nf + 2 }
    let st2 : St :=
      if bounds.contains newPoint && !(st1.grid.hasNeighbors newPoint separation) then
        { st1 with
            processingList := st1.processingList ++ [newPoint]
            outputList := st1.outputList ++ [newPoint]
            grid := st1.grid.add newPoint }
      else st1
    spawn1 env separation bounds center n st2

/-- One iteration of the while loop of the constant-separation variant:
    pick a random processing-list index, remove that point, spawn k
    candidates around it. -/
def step1 (env : Env) (separation : ℚ) (bounds : Rect) (k : ℤ) (st : St) : St :=
  let randPoint := env.ints st.ni % st.processingList.length
  let center := st.processingList.getD randPoint ((0 : ℚ), (0 : ℚ))
  let st1 : St :=
    { st with processingList := st.processingList.eraseIdx randPoint, ni := st.ni + 1 }
  spawn1 env separation bounds center k.toNat st1

/-- The while loop of the constant-separation variant, with fuel. -/
def loop1 (env : Env) (separation : ℚ) (bounds : Rect) (k : ℤ) :
    ℕ → St → Option (List Point)
  | fuel, st =>
    if st.processingList.isEmpty then some st.outputList
    else
      match fuel with
      | 0 => none
      | fuel1 + 1 => loop1 env separation bounds k fuel1 (step1 env separation bounds k st)

/-- The body of the initial-set for loop: push p onto the processing list,
    the output list, and the grid. -/
def addInitial (st : St) (p : Point) : St :=
  { st with
      processingList := st.processingList ++ [p]
      outputList := st.outputList ++ [p]
      grid := st.grid.add p }

/-- The common initialisation: copy initialSet into the processing list, the
    output list and a fresh Grid(Area(bounds), 3); if initialSet was empty,
    seed all three with bounds.getCenter(). -/
def initState (bounds : Rect) (initialSet : List Point) : St :=
  let st0 : St :=
    { processingList := [], outputList := [], grid := Grid.resize (areaOf bounds) 3
      nf := 0, ni := 0 }
  let st1 := initialSet.foldl addInitial st0
  if st1.processingList.isEmpty then
    { st1 with
        processingList := [bounds.getCenter]
        outputList := [bounds.getCenter]
        grid := st1.grid.add bounds.getCenter }
  else st1

/-- poissonDiskDistribution(float separation, Rectf bounds, vector initialSet, int k). -/
def poissonDiskDistribution1 (env : Env) (separation : ℚ) (bounds : Rect)
    (initialSet : List Point) (k : ℤ) (fuel : ℕ) : Option (List Point) :=
  loop1 env separation bounds k fuel (initState bounds initialSet)

/-- Inner candidate loop of the distance-function variant; dist is the value
    distFunction(center) computed once per processed point. -/
def spawn2 (env : Env) (bounds : Rect) (center : Point) (dist : ℚ) :
    ℕ → St → St
  | 0, st => st
  | n + 1, st =>
    let randRadius := dist * (1 + env.floats st.nf)
    let d := env.dir (env.floats (st.nf + 1))
    let newPoint : Point := (center.1 + d.1 * randRadius, center.2 + d.2 * randRadius)
    let st1 : St := { st with nf := st.nf + 2 }
    let st2 : St :=
      if bounds.contains newPoint && !(st1.grid.hasNeighbors newPoint dist) then
        { st1 with
            processingList := st1.processingList ++ [newPoint]
            outputList := st1.outputList ++ [newPoint]
            grid := st1.grid.add newPoint }
      else st1
    spawn2 env bounds center dist n st2

/-- One while-loop iteration of the distance-function variant. -/
def step2 (env : Env) (distFunction : Point → ℚ) (bounds : Rect) (k : ℤ) (st : St) : St :=
  let randPoint := env.ints st.ni % st.processingList.length
  let center := st.processingList.getD randPoint ((0 : ℚ), (0 : ℚ))
  let st1 : St :=
    { st with processingList := st.processingList.eraseIdx randPoint, ni := st.ni + 1 }
  let dist := distFunction center
  spawn2 env bounds center dist k.toNat st1

/-- The while loop of the distance-function variant, with fuel. -/
def loop2 (env : Env) (distFunction : Point → ℚ) (bounds : Rect) (k : ℤ) :
    ℕ → St → Option (List Point)
  | fuel, st =>
    if st.processingList.isEmpty then some st.outputList
    else
      match fuel with
      | 0 => none
      | fuel1 + 1 =>
        loop2 env distFunction bounds k fuel1 (step2 env distFunction bounds k st)

/-- poissonDiskDistribution(function distFunction, Rectf bounds, vector initialSet, int k). -/
def poissonDiskDistribution2 (env : Env) (distFunction : Point → ℚ) (bounds : Rect)
    (initialSet : List Point) (k : ℤ) (fuel : ℕ) : Option (List Point) :=
  loop2 env distFunction bounds k fuel (initState bounds initialSet)

/-- Inner candidate loop of the distance-function + bounds-predicate variant:
    identical to spawn2 except for the additional boundsFunction(newPoint)
    conjunct in the acceptance test. -/
def spawn3 (env : Env) (boundsFunction : Point → Bool) (bounds : Rect)
    (center : Point) (dist : ℚ) : ℕ → St → St
  | 0, st => st
  | n + 1, st =>
    let randRadius := dist * (1 + env.floats st.nf)
    let d := env.dir (env.floats (st.nf + 1))
    let newPoint : Point := (center.1 + d.1 * randRadius, center.2 + d.2 * randRadius)
    let st1 : St := { st with nf := st.nf + 2 }
    let st2 : St :=
      if bounds.contains newPoint && boundsFunction newPoint
          && !(st1.grid.hasNeighbors newPoint dist) then
        { st1 with
            processingList := st1.processingList ++ [newPoint]
            outputList := st1.outputList ++ [newPoint]
            grid := st1.grid.add newPoint }
      else st1
    spawn3 env boundsFunction bounds center dist n st2

/-- One while-loop iteration of the predicate variant. -/
def step3 (env : Env) (distFunction : Point → ℚ) (boundsFunction : Point → Bool)
    (bounds : Rect) (k : ℤ) (st : St) : St :=
  let randPoint := env.ints st.ni % st.processingList.length
  let center := st.processingList.getD randPoint ((0 : ℚ), (0 : ℚ))
  let st1 : St :=
    { st with processingList := st.processingList.eraseIdx randPoint, ni := st.ni + 1 }
  let dist := distFunction center
  spawn3 env boundsFunction bounds center dist k.toNat st1

/-- The while loop of the predicate variant, with fuel. -/
def loop3 (env : Env) (distFunction : Point → ℚ) (boundsFunction : Point → Bool)
    (bounds : Rect) (k : ℤ) : ℕ → St → Option (List Point)
  | fuel, st =>
    if st.processingList.isEmpty then some st.outputList
    else
      match fuel with
      | 0 => none
      | fuel1 + 1 =>
        loop3 env distFunction boundsFunction bounds k fuel1
          (step3 env distFunction boundsFunction bounds k st)

/-- poissonDiskDistribution(function distFunction, function boundsFunction,
    Rectf bounds, vector initialSet, int k). -/
def poissonDiskDistribution3 (env : Env) (distFunction : Point → ℚ)
    (boundsFunction : Point → Bool) (bounds : Rect) (initialSet : List Point)
    (k : ℤ) (fuel : ℕ) : Option (List Point) :=
  loop3 env distFunction boundsFunction bounds k fuel (initState bounds initialSet)

/-- The state of the predicate variant extended with a ghost trace field:
    parents records, for each generated point in acceptance order, the active
    point (parent) whose annulus produced it.  All run fields evolve exactly
    as in St; the trace is write-only. -/
structure StT where
  processingList : List Point
  outputList : List Point
  grid : Grid
  nf : ℕ
  ni : ℕ
  parents : List Point

/-- Forgetting the ghost trace. -/
def StT.toSt (st : StT) : St :=
  { processingList := st.processingList, outputList := st.outputList
    grid := st.grid, nf := st.nf, ni := st.ni }

/-- spawn3 with the ghost trace: an accepted candidate also records its
    parent (the current center). -/
def spawn3T (env : Env) (boundsFunction : Point → Bool) (bounds : Rect)
    (center : Point) (dist : ℚ) : ℕ → StT → StT
  | 0, st => st
  | n + 1, st =>
    let randRadius := dist * (1 + env.floats st.nf)
    let d := env.dir (env.floats (st.nf + 1))
    let newPoint : Point := (center.1 + d.1 * randRadius, center.2 + d.2 * randRadius)
    let st1 : StT := { st with nf := st.nf + 2 }
    let st2 : StT :=
      if bounds.contains newPoint && boundsFunction newPoint
          && !(st1.grid.hasNeighbors newPoint dist) then
        { st1 with
            processingList := st1.processingList ++ [newPoint]
            outputList := st1.outputList ++ [newPoint]
            grid := st1.grid.add newPoint
            parents := st1.parents ++ [center] }
      else st1
    spawn3T env boundsFunction bounds center dist n st2

/-- step3 with the ghost trace. -/
def step3T (env : Env) (distFunction : Point → ℚ) (boundsFunction : Point → Bool)
    (bounds : Rect) (k : ℤ) (st : StT) : StT :=
  let randPoint := env.ints st.ni % st.processingList.length
  let center := st.processingList.getD randPoint ((0 : ℚ), (0 : ℚ))
  let st1 : StT :=
    { st with processingList := st.processingList.eraseIdx randPoint, ni := st.ni + 1 }
  let dist := distFunction center
  spawn3T env boundsFunction bounds center dist k.toNat st1

/-- loop3 with the ghost trace; returns the output list and the parent list. -/
def loop3T (env : Env) (distFunction : Point → ℚ) (boundsFunction : Point → Bool)
    (bounds : Rect) (k : ℤ) : ℕ → StT → Option (List Point × List Point)
  | fuel, st =>
    if st.processingList.isEmpty then some (st.outputList, st.parents)
    else
      match fuel with
      | 0 => none
      | fuel1 + 1 =>
        loop3T env distFunction boundsFunction bounds k fuel1
          (step3T env distFunction boundsFunction bounds k st)

/-- initState with an empty ghost trace. -/
def initStateT (bounds : Rect) (initialSet : List Point) : StT :=
  let s := initState bounds initialSet
  { processingList := s.processingList, outputList := s.outputList, grid := s.grid
    nf := s.nf, ni := s.ni, parents := [] }

/-- poissonDiskDistribution3 with the ghost trace. -/
def poissonDiskDistribution3T (env : Env) (distFunction : Point → ℚ)
    (boundsFunction : Point → Bool) (bounds : Rect) (initialSet : List Point)
    (k : ℤ) (fuel : ℕ) : Option (List Point × List Point) :=
  loop3T env distFunction boundsFunction bounds k fuel (initStateT bounds initialSet)

/-- The output points a run starts from: initialSet if non-empty, else the
    seeded center. -/
def baseOf (bounds : Rect) (initialSet : List Point) : List Point :=
  if initialSet.isEmpty then [bounds.getCenter] else initialSet

/-- Length of baseOf, which is also the number of while-loop iterations a run
    with k ≤ 0 performs. -/
def baseLen (bounds : Rect) (initialSet : List Point) : ℕ :=
  (baseOf bounds initialSet).length

/-- The separation bookkeeping of a run: prior is the list of points already
    output; each generated point gen[t] with parent pars[t] is at squared
    distance at least (sepFn pars[t])² from every point output before it, and
    then joins the prior points. -/
def sepOK (sepFn : Point → ℚ) : List Point → List Point → List Point → Prop
  | _, [], [] => True
  | prior, q :: gen, c :: pars =>
    (∀ p ∈ prior, (sepFn c) ^ 2 ≤ sqDist p q) ∧ sepOK sepFn (prior ++ [q]) gen pars
  | _, _ :: _, [] => False
  | _, [], _ :: _ => False

/-- The cell index as the spec sentence describes it: per-axis
    floor((coordinate + offset) / cellSize), flattened as x + numCellsX * y. -/
def specCellIndex (g : Grid) (p : Point) : ℤ :=
  ⌊(p.1 + (g.offset.1 : ℚ)) / (g.cellSize : ℚ)⌋ +
    g.numCells.1 * ⌊(p.2 + (g.offset.2 : ℚ)) / (g.cellSize : ℚ)⌋

/-- The axis-aligned rectangle [0,w] × [0,h]. -/
def rect00 (w h : ℕ) : Rect := { x1 := 0, y1 := 0, x2 := (w : ℚ), y2 := (h : ℚ) }

/-- Membership in the closed box [0,w] × [0,h] (= containment in rect00). -/
def inBox (w h : ℕ) (p : Point) : Prop :=
  0 ≤ p.1 ∧ p.1 ≤ (w : ℚ) ∧ 0 ≤ p.2 ∧ p.2 ≤ (h : ℚ)

/-- Cell counts that Grid.resize computes for the box [0,w] × [0,h]. -/
def nc8 (n : ℕ) : ℤ := ⌈(n : ℚ) / 8⌉

/-- The canonical flat cell index of a point of the box [0,w] × [0,h] in a
    grid over that box with cell-size exponent 3. -/
def canonFlat (w : ℕ) (p : Point) : ℤ :=
  ⌊p.1⌋ / 8 + nc8 w * (⌊p.2⌋ / 8)

/-- The configuration a grid over the box [0,w] × [0,h] has after
    Grid.resize with k = 3, and keeps under Grid.add: only cells varies, and
    its length stays numCells.x * numCells.y. -/
def gridConf (w h : ℕ) (g : Grid) : Prop :=
  g.numCells = (nc8 w, nc8 h) ∧ g.offset = (0, 0) ∧
    g.bounds = { x1 := 0, y1 := 0, x2 := (w : ℤ), y2 := (h : ℤ) } ∧ g.k = 3 ∧
    (g.cells.length : ℤ) = nc8 w * nc8 h

/-- A separation policy taking positive integer values (as rationals). -/
def intSep (sepFn : Point → ℚ) : Prop :=
  ∀ p : Point, ∃ n : ℕ, 1 ≤ n ∧ sepFn p = (n : ℚ)

/-- The run invariant for the separation analysis over [0,w] × [0,h]: the
    grid keeps its canonical configuration, every output point is in the box
    and stored in its canonical cell, and the output extends base by a list
    of generated points satisfying the separation bookkeeping sepOK. -/
def runInv (w h : ℕ) (sepFn : Point → ℚ) (base : List Point) (st : StT) : Prop :=
  gridConf w h st.grid ∧
    (∀ p ∈ st.outputList, inBox w h p) ∧
    (∀ p ∈ st.outputList, p ∈ st.grid.cells.getD (canonFlat w p).toNat []) ∧
    ∃ gen, st.outputList = base ++ gen ∧ sepOK sepFn base gen st.parents

/-- An environment whose streams are constantly zero and whose direction
    collaborator points along the positive x axis (dir 0 is exactly
    (cos 0, sin 0)). -/
def env0 : Env := { floats := fun _ => 0, ints := fun _ => 0, dir := fun _ => (1, 0) }

/-- A random source used for the candidate-count comparison: the first four
    float draws are 0 (radius factor 1, angle 0), all later draws are 1/2
    (radius factor 3/2, angle π); dir returns the exact cos/sin values of the
    two angles that occur, (1,0) for angle 0 and (-1,0) for angle π. -/
def envMono : Env :=
  { floats := fun n => if n < 4 then 0 else 1 / 2
    ints := fun _ => 0
    dir := fun f => if f = 1 / 2 then (-1, 0) else (1, 0) }

/-- The rectangle [0,16] × [0,16]. -/
def r16 : Rect := { x1 := 0, y1 := 0, x2 := 16, y2 := 16 }

/-- The rectangle [0,32] × [0,32]. -/
def r32 : Rect := { x1 := 0, y1 := 0, x2 := 32, y2 := 32 }

/-- The concrete run with separation 0, bounds [0,16]², empty initialSet and
    k = 1 never returns: whatever fuel bound the embedded while loop is
    given, its processing list is still non-empty when the fuel runs out. -/
def zeroSepRunDiverges : Prop :=
  ∀ fuel : ℕ, poissonDiskDistribution1 env0 0 r16 [] 1 fuel = none

/-- The rectangle [0,9] × [0,9]. -/
def r9 : Rect := { x1 := 0, y1 := 0, x2 := 9, y2 := 9 }

/-- The integer area [-4,12] × [-4,12] (as Area(Rectf(-4,-4,12,12))). -/
def aN4 : AreaI := { x1 := -4, y1 := -4, x2 := 12, y2 := 12 }

/-- The integer area [-8,8] × [-8,8] (as Area(Rectf(-8,-8,8,8))). -/
def aN8 : AreaI := { x1 := -8, y1 := -8, x2 := 8, y2 := 8 }

/-- A 2x2-cell grid over aN4 holding the single point (15/4, 1/2). -/
def gC3 : Grid := (Grid.resize aN4 3).add (15 / 4, 1 / 2)

/-- A fresh 2x2-cell grid over aN8. -/
def gC4 : Grid := Grid.resize aN8 3

/-- A 2x2-cell grid over [0,16]² holding the single point (8, 8). -/
def g88 : Grid := (Grid.resize (areaOf r16) 3).add (8, 8)

/-- A 2x2-cell grid over [0,9]² holding the single point (1, 1). -/
def g9 : Grid := (Grid.resize (areaOf r9) 3).add (1, 1)

/-- A fresh 2x2-cell grid over [0,16]². -/
def g16 : Grid := Grid.resize (areaOf r16) 3

/-! ### Basic facts -/

theorem sqDist_nonneg (p q : Point) : 0 ≤ sqDist p q :=
  add_nonneg (sq_nonneg _) (sq_nonneg _)

theorem sqDist_comm (p q : Point) : sqDist p q = sqDist q p := by
  unfold sqDist; ring

theorem hasNeighbors_zero_radius (g : Grid) (p : Point) :
    g.hasNeighbors p 0 = false := by
  simp only [Bool.eq_false_iff, ne_eq]
  intro h
  unfold Grid.hasNeighbors at h
  simp only [List.any_eq_true, decide_eq_true_eq] at h
  obtain ⟨y, -, x, -, c, -, hc⟩ := h
  have h0 := sqDist_nonneg p c
  nlinarith

/-! ### The three variants are one generic operation -/

theorem spawn1_eq_spawn2 (env : Env) (s : ℚ) (b : Rect) (c : Point) :
    ∀ n st, spawn1 env s b c n st = spawn2 env b c s n st := by
  intro n
  induction n with
  | zero => intro st; rfl
  | succ n ih =>
    intro st
    rw [spawn1, spawn2]
    exact ih _

theorem spawn2_eq_spawn3 (env : Env) (b : Rect) (c : Point) (d : ℚ) :
    ∀ n st, spawn2 env b c d n st = spawn3 env (fun _ => true) b c d n st := by
  intro n
  induction n with
  | zero => intro st; rfl
  | succ n ih =>
    intro st
    rw [spawn2, spawn3]
    simp only [Bool.and_true]
    exact ih _

theorem step1_eq_step2 (env : Env) (s : ℚ) (b : Rect) (k : ℤ) (st : St) :
    step1 env s b k st = step2 env (fun _ => s) b k st := by
  unfold step1 step2
  rw [spawn1_eq_spawn2]

theorem step2_eq_step3 (env : Env) (f : Point → ℚ) (b : Rect) (k : ℤ) (st : St) :
    step2 env f b k st = step3 env f (fun _ => true) b k st := by
  unfold step2 step3
  rw [spawn2_eq_spawn3]

theorem loop1_eq_loop2 (env : Env) (s : ℚ) (b : Rect) (k : ℤ) :
    ∀ fuel st, loop1 env s b k fuel st = loop2 env (fun _ => s) b k fuel st := by
  intro fuel
  induction fuel with
  | zero => intro st; rfl
  | succ n ih =>
    intro st
    rw [loop1, loop2]
    cases hb : st.processingList.isEmpty
    · simp only [hb, Bool.false_eq_true, if_false]
      rw [step1_eq_step2]
      exact ih _
    · simp only [hb, if_true]

theorem loop2_eq_loop3 (env : Env) (f : Point → ℚ) (b : Rect) (k : ℤ) :
    ∀ fuel st, loop2 env f b k fuel st = loop3 env f (fun _ => true) b k fuel st := by
  intro fuel
  induction fuel with
  | zero => intro st; rfl
  | succ n ih =>
    intro st
    rw [loop2, loop3]
    cases hb : st.processingList.isEmpty
    · simp only [hb, Bool.false_eq_true, if_false]
      rw [step2_eq_step3]
      exact ih _
    · simp only [hb, if_true]

theorem pdd1_eq_pdd2 (env : Env) (s : ℚ) (b : Rect) (init : List Point) (k : ℤ)
    (fuel : ℕ) :
    poissonDiskDistribution1 env s b init k fuel =
      poissonDiskDistribution2 env (fun _ => s) b init k fuel :=
  loop1_eq_loop2 env s b k fuel (initState b init)

theorem pdd2_eq_pdd3 (env : Env) (f : Point → ℚ) (b : Rect) (init : List Point)
    (k : ℤ) (fuel : ℕ) :
    poissonDiskDistribution2 env f b init k fuel =
      poissonDiskDistribution3 env f (fun _ => true) b init k fuel :=
  loop2_eq_loop3 env f b k fuel (initState b init)

theorem pdd1_eq_pdd3 (env : Env) (s : ℚ) (b : Rect) (init : List Point) (k : ℤ)
    (fuel : ℕ) :
    poissonDiskDistribution1 env s b init k fuel =
      poissonDiskDistribution3 env (fun _ => s) (fun _ => true) b init k fuel :=
  (pdd1_eq_pdd2 env s b init k fuel).trans (pdd2_eq_pdd3 env (fun _ => s) b init k fuel)

/-! ### The output list only grows by appending -/

theorem spawn3_output_extends (env : Env) (bf : Point → Bool) (b : Rect) (c : Point)
    (d : ℚ) :
    ∀ n st, ∃ t, (spawn3 env bf b c d n st).outputList = st.outputList ++ t := by
  intro n
  induction n with
  | zero => intro st; exact ⟨[], (List.append_nil _).symm⟩
  | succ n ih =>
    intro st
    have key : ∀ (s : List Point) (st2 : St), st2.outputList = st.outputList ++ s →
        ∃ t, (spawn3 env bf b c d n st2).outputList = st.outputList ++ t := by
      intro s st2 h2
      obtain ⟨t, ht⟩ := ih st2
      exact ⟨s ++ t, by rw [ht, h2, List.append_assoc]⟩
    simp only [spawn3]
    split
    · exact key _ _ rfl
    · exact key [] _ (List.append_nil _).symm

theorem step3_output_extends (env : Env) (f : Point → ℚ) (bf : Point → Bool)
    (b : Rect) (k : ℤ) (st : St) :
    ∃ t, (step3 env f bf b k st).outputList = st.outputList ++ t := by
  unfold step3
  exact spawn3_output_extends env bf b _ _ k.toNat _

theorem loop3_output_extends (env : Env) (f : Point → ℚ) (bf : Point → Bool)
    (b : Rect) (k : ℤ) :
    ∀ fuel (st : St) (out : List Point),
      loop3 env f bf b k fuel st = some out → ∃ t, out = st.outputList ++ t := by
  intro fuel
  induction fuel with
  | zero =>
    intro st out h
    rw [loop3] at h
    by_cases hb : st.processingList.isEmpty = true
    · rw [if_pos hb] at h
      exact ⟨[], by simpa using (Option.some_injective _ h).symm⟩
    · rw [if_neg hb] at h
      exact absurd h (by simp)
  | succ n ih =>
    intro st out h
    rw [loop3] at h
    by_cases hb : st.processingList.isEmpty = true
    · rw [if_pos hb] at h
      exact ⟨[], by simpa using (Option.some_injective _ h).symm⟩
    · rw [if_neg hb] at h
      obtain ⟨t1, ht1⟩ := ih _ _ h
      obtain ⟨t2, ht2⟩ := step3_output_extends env f bf b k st
      exact ⟨t2 ++ t1, by rw [ht1, ht2, List.append_assoc]⟩

/-! ### What initState builds -/

theorem foldl_addInitial_processing :
    ∀ (l : List Point) (st : St),
      (l.foldl addInitial st).processingList = st.processingList ++ l := by
  intro l
  induction l with
  | nil => intro st; simp
  | cons p l ih =>
    intro st
    rw [List.foldl_cons, ih]
    simp [addInitial]

theorem foldl_addInitial_output :
    ∀ (l : List Point) (st : St),
      (l.foldl addInitial st).outputList = st.outputList ++ l := by
  intro l
  induction l with
  | nil => intro st; simp
  | cons p l ih =>
    intro st
    rw [List.foldl_cons, ih]
    simp [addInitial]

theorem foldl_addInitial_grid :
    ∀ (l : List Point) (st : St),
      (l.foldl addInitial st).grid = l.foldl Grid.add st.grid := by
  intro l
  induction l with
  | nil => intro st; rfl
  | cons p l ih =>
    intro st
    rw [List.foldl_cons, List.foldl_cons, ih]
    rfl

theorem initState_processingList (b : Rect) (init : List Point) :
    (initState b init).processingList = baseOf b init := by
  simp only [initState, baseOf, apply_ite St.processingList, foldl_addInitial_processing,
    List.nil_append]

theorem initState_outputList (b : Rect) (init : List Point) :
    (initState b init).outputList = baseOf b init := by
  simp only [initState, baseOf, apply_ite St.outputList, foldl_addInitial_processing,
    foldl_addInitial_output, List.nil_append]

theorem initState_grid (b : Rect) (init : List Point) :
    (initState b init).grid =
      (baseOf b init).foldl Grid.add (Grid.resize (areaOf b) 3) := by
  simp only [initState, baseOf, apply_ite St.grid, foldl_addInitial_processing,
    foldl_addInitial_grid, List.nil_append]
  by_cases hb : init.isEmpty = true
  · have h0 : init = [] := List.isEmpty_iff.mp hb
    subst h0
    simp
  · simp [hb]

theorem baseOf_ne_nil (b : Rect) (init : List Point) : baseOf b init ≠ [] := by
  unfold baseOf
  by_cases hb : init.isEmpty = true
  · simp [hb]
  · have hne : init ≠ [] := fun hn => hb (by simp [hn])
    simpa [hb] using hne

/-! ### Runs with k ≤ 0 drain the processing list and add nothing -/

theorem loop3_drain (env : Env) (f : Point → ℚ) (bf : Point → Bool) (b : Rect)
    (k : ℤ) (hk : k ≤ 0) :
    ∀ (L : ℕ) (st : St), st.processingList.length = L →
      loop3 env f bf b k L st = some st.outputList := by
  intro L
  induction L with
  | zero =>
    intro st h
    rw [loop3]
    rw [if_pos (by simpa using List.length_eq_zero.mp h)]
  | succ L ih =>
    intro st h
    have hne : st.processingList.isEmpty = false := by
      cases hl : st.processingList with
      | nil => rw [hl] at h; simp at h
      | cons a l => simp [hl]
    rw [loop3, if_neg (by simp [hne])]
    have hk0 : k.toNat = 0 := Int.toNat_of_nonpos hk
    unfold step3
    rw [hk0]
    have hlt : env.ints st.ni % st.processingList.length < st.processingList.length := by
      rw [h]; exact Nat.mod_lt _ (Nat.succ_pos L)
    have hlen : (st.processingList.eraseIdx
        (env.ints st.ni % st.processingList.length)).length = L := by
      have h1 := List.length_eraseIdx_add_one hlt
      omega
    exact ih _ hlen

/-! ### With separation 0 and k = 1 the while loop never exits: every
    candidate coincides with its parent, lies in bounds, and passes the
    strict neighbor test, so the processing list never empties. -/

theorem loop1_zero_sep_diverges (env : Env) (b : Rect) (c : Point)
    (hc : b.contains c = true) :
    ∀ fuel (st : St), st.processingList = [c] → loop1 env 0 b 1 fuel st = none := by
  intro fuel
  induction fuel with
  | zero =>
    intro st h
    rw [loop1, if_neg (by simp [h])]
  | succ n ih =>
    intro st h
    rw [loop1, if_neg (by simp [h])]
    apply ih
    unfold step1
    rw [h]
    simp only [List.length_cons, List.length_nil, Nat.zero_add, Nat.mod_one,
      List.getD_cons_zero, List.eraseIdx_cons_zero, Int.toNat_one]
    rw [show (1 : ℕ) = 0 + 1 from rfl, spawn1, spawn1]
    simp [hc, hasNeighbors_zero_radius]

/-! ### Projection of the traced run to the plain run -/

theorem spawn3T_toSt (env : Env) (bf : Point → Bool) (b : Rect) (c : Point) (d : ℚ) :
    ∀ n st, (spawn3T env bf b c d n st).toSt = spawn3 env bf b c d n st.toSt := by
  intro n
  induction n with
  | zero => intro st; rfl
  | succ n ih =>
    intro st
    simp only [spawn3T, spawn3, StT.toSt]
    split
    · exact ih _
    · exact ih _

theorem step3T_toSt (env : Env) (f : Point → ℚ) (bf : Point → Bool) (b : Rect)
    (k : ℤ) (st : StT) :
    (step3T env f bf b k st).toSt = step3 env f bf b k st.toSt := by
  unfold step3T step3
  rw [spawn3T_toSt]
  rfl

theorem loop3T_map_fst (env : Env) (f : Point → ℚ) (bf : Point → Bool) (b : Rect)
    (k : ℤ) :
    ∀ fuel (st : StT),
      (loop3T env f bf b k fuel st).map Prod.fst = loop3 env f bf b k fuel st.toSt := by
  intro fuel
  induction fuel with
  | zero =>
    intro st
    rw [loop3T, loop3]
    by_cases hb : st.processingList.isEmpty = true
    · have hb2 : st.toSt.processingList.isEmpty = true := hb
      rw [if_pos hb, if_pos hb2]
      rfl
    · have hb2 : ¬st.toSt.processingList.isEmpty = true := hb
      rw [if_neg hb, if_neg hb2]
      rfl
  | succ n ih =>
    intro st
    rw [loop3T, loop3]
    by_cases hb : st.processingList.isEmpty = true
    · have hb2 : st.toSt.processingList.isEmpty = true := hb
      rw [if_pos hb, if_pos hb2]
      rfl
    · have hb2 : ¬st.toSt.processingList.isEmpty = true := hb
      rw [if_neg hb, if_neg hb2]
      rw [ih, step3T_toSt]

/-! ### Candidate generation is additive in the candidate count -/

theorem spawn1_additive (env : Env) (s : ℚ) (r : Rect) (c : Point) :
    ∀ (a b2 : ℕ) (st : St),
      spawn1 env s r c (a + b2) st = spawn1 env s r c b2 (spawn1 env s r c a st) := by
  intro a
  induction a with
  | zero => intro b2 st; rw [Nat.zero_add]; rfl
  | succ a ih =>
    intro b2 st
    rw [show a + 1 + b2 = a + b2 + 1 from by omega, spawn1, spawn1]
    exact ih b2 _

theorem spawn2_additive (env : Env) (r : Rect) (c : Point) (d : ℚ) :
    ∀ (a b2 : ℕ) (st : St),
      spawn2 env r c d (a + b2) st = spawn2 env r c d b2 (spawn2 env r c d a st) := by
  intro a
  induction a with
  | zero => intro b2 st; rw [Nat.zero_add]; rfl
  | succ a ih =>
    intro b2 st
    rw [show a + 1 + b2 = a + b2 + 1 from by omega, spawn2, spawn2]
    exact ih b2 _

theorem spawn3_additive (env : Env) (bf : Point → Bool) (r : Rect) (c : Point) (d : ℚ) :
    ∀ (a b2 : ℕ) (st : St),
      spawn3 env bf r c d (a + b2) st = spawn3 env bf r c d b2 (spawn3 env bf r c d a st) := by
  intro a
  induction a with
  | zero => intro b2 st; rw [Nat.zero_add]; rfl
  | succ a ih =>
    intro b2 st
    rw [show a + 1 + b2 = a + b2 + 1 from by omega, spawn3, spawn3]
    exact ih b2 _

/-- A run with k ≤ 0 performs exactly baseLen iterations, each of which only
    removes a point, and then returns the unchanged initial output. -/
theorem pdd3_drain (env : Env) (f : Point → ℚ) (bf : Point → Bool) (bounds : Rect)
    (initialSet : List Point) (k : ℤ) (hk : k ≤ 0) :
    poissonDiskDistribution3 env f bf bounds initialSet k (baseLen bounds initialSet) =
      some (baseOf bounds initialSet) := by
  unfold poissonDiskDistribution3
  have hlen : (initState bounds initialSet).processingList.length =
      baseLen bounds initialSet := by
    rw [initState_processingList]; rfl
  rw [loop3_drain env f bf bounds k hk _ _ hlen, initState_outputList]

/-! ### Claim theorems and counterexamples -/

/-- C9: the three entry points are one generic operation: the
    constant-separation variant equals the function variant at the constant
    function, and the function variant equals the predicate variant at the
    always-true predicate, for every environment, input and fuel. -/
theorem c9_variants_are_specializations :
    (∀ (env : Env) (s : ℚ) (bounds : Rect) (initialSet : List Point) (k : ℤ) (fuel : ℕ),
        poissonDiskDistribution1 env s bounds initialSet k fuel =
          poissonDiskDistribution2 env (fun _ => s) bounds initialSet k fuel) ∧
      (∀ (env : Env) (f : Point → ℚ) (bounds : Rect) (initialSet : List Point)
          (k : ℤ) (fuel : ℕ),
        poissonDiskDistribution2 env f bounds initialSet k fuel =
          poissonDiskDistribution3 env f (fun _ => true) bounds initialSet k fuel) :=
  ⟨fun env s bounds initialSet k fuel => pdd1_eq_pdd2 env s bounds initialSet k fuel,
   fun env f bounds initialSet k fuel => pdd2_eq_pdd3 env f bounds initialSet k fuel⟩

/-- C6: when initialSet is non-empty, the output of every terminating run of
    every variant starts with initialSet, verbatim and in order. -/
theorem c6_initial_set_is_output_head :
    ∀ (env : Env) (bounds : Rect) (initialSet : List Point) (k : ℤ) (fuel : ℕ)
      (out : List Point), initialSet ≠ [] →
      ((∀ s, poissonDiskDistribution1 env s bounds initialSet k fuel = some out →
          ∃ t, out = initialSet ++ t) ∧
        (∀ f, poissonDiskDistribution2 env f bounds initialSet k fuel = some out →
          ∃ t, out = initialSet ++ t) ∧
        (∀ f bf, poissonDiskDistribution3 env f bf bounds initialSet k fuel = some out →
          ∃ t, out = initialSet ++ t)) := by
  intro env bounds initialSet k fuel out hne
  have hbase : baseOf bounds initialSet = initialSet := by
    unfold baseOf
    cases hinit : initialSet with
    | nil => exact absurd hinit hne
    | cons a l => rfl
  have core : ∀ f bf, poissonDiskDistribution3 env f bf bounds initialSet k fuel = some out →
      ∃ t, out = initialSet ++ t := by
    intro f bf h
    obtain ⟨t, ht⟩ := loop3_output_extends env f bf bounds k fuel (initState bounds initialSet) out h
    rw [initState_outputList, hbase] at ht
    exact ⟨t, ht⟩
  refine ⟨?_, ?_, core⟩
  · intro s h
    rw [pdd1_eq_pdd3] at h
    exact core _ _ h
  · intro f h
    rw [pdd2_eq_pdd3] at h
    exact core _ _ h

/-- C5(amended): the predicate variant adds the seeded center to the output
    without consulting boundsFunction, so a terminating run with empty
    initialSet always returns a non-empty output starting with the center;
    an empty OutputSet is impossible. -/
theorem c5_center_is_unconditional :
    ∀ (env : Env) (f : Point → ℚ) (bf : Point → Bool) (bounds : Rect) (k : ℤ)
      (fuel : ℕ) (out : List Point),
      poissonDiskDistribution3 env f bf bounds [] k fuel = some out →
      out.take 1 = [bounds.getCenter] ∧ out ≠ [] := by
  intro env f bf bounds k fuel out h
  obtain ⟨t, ht⟩ := loop3_output_extends env f bf bounds k fuel (initState bounds []) out h
  rw [initState_outputList] at ht
  have hb : baseOf bounds [] = [bounds.getCenter] := rfl
  rw [hb] at ht
  subst ht
  exact ⟨rfl, by simp⟩

/-- C5 counterexample: with the always-false admissibility predicate and
    empty initialSet the run does not return the empty set: the seeded center
    is in the output even though the predicate rejects it. -/
theorem c5_counterexample :
    poissonDiskDistribution3 env0 (fun _ => 1) (fun _ => false) r16 [] 0 1 =
      some [r16.getCenter] := by with_unfolding_all decide

/-- C10: with k ≤ 0, every variant returns exactly the initial points (the
    seeded center when initialSet is empty) once the processing list has been
    drained, one removal per iteration. -/
theorem c10_nonpositive_k_returns_base :
    ∀ (env : Env) (bounds : Rect) (initialSet : List Point) (k : ℤ), k ≤ 0 →
      ((∀ s, poissonDiskDistribution1 env s bounds initialSet k
          (baseLen bounds initialSet) = some (baseOf bounds initialSet)) ∧
        (∀ f, poissonDiskDistribution2 env f bounds initialSet k
          (baseLen bounds initialSet) = some (baseOf bounds initialSet)) ∧
        (∀ f bf, poissonDiskDistribution3 env f bf bounds initialSet k
          (baseLen bounds initialSet) = some (baseOf bounds initialSet))) := by
  intro env bounds initialSet k hk
  refine ⟨?_, ?_, fun f bf => pdd3_drain env f bf bounds initialSet k hk⟩
  · intro s
    rw [pdd1_eq_pdd3]
    exact pdd3_drain env _ _ bounds initialSet k hk
  · intro f
    rw [pdd2_eq_pdd3]
    exact pdd3_drain env f _ bounds initialSet k hk

/-- C10 witness at a concrete input: k = -3, initialSet = [(1,2)]. -/
theorem c10_witness :
    (-3 : ℤ) ≤ 0 ∧
      poissonDiskDistribution1 env0 5 r16 [(1, 2)] (-3) (baseLen r16 [(1, 2)]) =
        some (baseOf r16 [(1, 2)]) :=
  ⟨by with_unfolding_all decide,
    (c10_nonpositive_k_returns_base env0 r16 [(1, 2)] (-3) (by with_unfolding_all decide)).1 5⟩

/-- C7(amended): termination does not hold for all inputs, but every run of
    every variant with k ≤ 0 terminates and returns an output. -/
theorem c7_nonpositive_k_terminates :
    ∀ (env : Env) (bounds : Rect) (initialSet : List Point) (k : ℤ), k ≤ 0 →
      ((∀ s, ∃ out, poissonDiskDistribution1 env s bounds initialSet k
          (baseLen bounds initialSet) = some out) ∧
        (∀ f, ∃ out, poissonDiskDistribution2 env f bounds initialSet k
          (baseLen bounds initialSet) = some out) ∧
        (∀ f bf, ∃ out, poissonDiskDistribution3 env f bf bounds initialSet k
          (baseLen bounds initialSet) = some out)) := by
  intro env bounds initialSet k hk
  refine ⟨?_, ?_, fun f bf => ⟨_, pdd3_drain env f bf bounds initialSet k hk⟩⟩
  · intro s
    rw [pdd1_eq_pdd3]
    exact ⟨_, pdd3_drain env _ _ bounds initialSet k hk⟩
  · intro f
    rw [pdd2_eq_pdd3]
    exact ⟨_, pdd3_drain env f _ bounds initialSet k hk⟩

/-- C7 witness at a concrete input: k = 0, empty initialSet. -/
theorem c7_witness :
    (0 : ℤ) ≤ 0 ∧
      ∃ out, poissonDiskDistribution1 env0 5 r16 [] 0 (baseLen r16 []) = some out :=
  ⟨by with_unfolding_all decide, (c7_nonpositive_k_terminates env0 r16 [] 0 (by with_unfolding_all decide)).1 5⟩

/-- C7 counterexample: with separation 0 and k = 1 the constant-separation
    run never returns, whatever the fuel: every candidate coincides with its
    in-bounds parent and the strict neighbor test never rejects it, so the
    processing list never empties. -/
theorem c7_counterexample : zeroSepRunDiverges := by
  intro fuel
  unfold poissonDiskDistribution1
  apply loop1_zero_sep_diverges env0 r16 ((8 : ℚ), (8 : ℚ)) (by with_unfolding_all decide)
  rw [initState_processingList]
  with_unfolding_all decide

/-- C1 counterexample: two initial points at distance 1 both appear in the
    output of a run with constant separation 10, so not every pair of
    distinct output points is separated by the separation in force. -/
theorem c1_counterexample :
    poissonDiskDistribution1 env0 10 r16 [(0, 0), (1, 0)] 0 2 =
        some [(0, 0), (1, 0)] ∧
      sqDist (0, 0) (1, 0) < 10 ^ 2 := by with_unfolding_all decide

/-- C2 counterexample: an initial point far outside bounds is returned
    verbatim in the output. -/
theorem c2_counterexample :
    poissonDiskDistribution1 env0 10 r16 [(20, 20)] 0 1 = some [(20, 20)] ∧
      r16.contains (20, 20) = false := by with_unfolding_all decide

/-- C8 counterexample: with the random streams held fixed, raising k from 1
    to 2 shrinks the output from three points to two. -/
theorem c8_counterexample :
    poissonDiskDistribution1 envMono 4 r32 [(16, 16)] 1 5 =
        some [(16, 16), (20, 16), (24, 16)] ∧
      poissonDiskDistribution1 envMono 4 r32 [(16, 16)] 2 5 =
        some [(16, 16), (20, 16)] ∧
      ([(16, 16), (20, 16)] : List Point).length <
        ([(16, 16), (20, 16), (24, 16)] : List Point).length := by with_unfolding_all decide

/-- C4 counterexample: over the domain [-8,8]², the point (-1/2,-1/2) is
    retained by Grid::add in flat cell 3 (truncation toward zero happens
    before the offset is added), while the specified formula
    floor((coordinate + offset) / cellSize) names cell 0. -/
theorem c4_counterexample :
    (gC4.add (-1 / 2, -1 / 2)).cells.getD 3 [] = [(-1 / 2, -1 / 2)] ∧
      (gC4.add (-1 / 2, -1 / 2)).cells.getD 0 [] = [] ∧
      specCellIndex gC4 (-1 / 2, -1 / 2) = 0 := by with_unfolding_all decide

/-- Accepted candidates satisfy the containment test and the admissibility
    predicate: the inner candidate loop only appends such points. -/
theorem spawn3_generated_ok (env : Env) (bf : Point → Bool) (b : Rect) (c : Point)
    (d : ℚ) :
    ∀ n st, ∃ t, (spawn3 env bf b c d n st).outputList = st.outputList ++ t ∧
      ∀ p ∈ t, b.contains p = true ∧ bf p = true := by
  intro n
  induction n with
  | zero => intro st; exact ⟨[], (List.append_nil _).symm, by simp⟩
  | succ n ih =>
    intro st
    have key : ∀ (s : List Point) (st2 : St), st2.outputList = st.outputList ++ s →
        (∀ p ∈ s, b.contains p = true ∧ bf p = true) →
        ∃ t, (spawn3 env bf b c d n st2).outputList = st.outputList ++ t ∧
          ∀ p ∈ t, b.contains p = true ∧ bf p = true := by
      intro s st2 h2 hs
      obtain ⟨t, ht, hprop⟩ := ih st2
      refine ⟨s ++ t, ?_, ?_⟩
      · rw [ht, h2, List.append_assoc]
      · intro p hp
        rcases List.mem_append.mp hp with h | h
        · exact hs p h
        · exact hprop p h
    simp only [spawn3]
    split
    next hcond =>
      refine key _ _ rfl ?_
      intro p hp
      simp only [Bool.and_eq_true] at hcond
      rw [List.mem_singleton.mp hp]
      exact ⟨hcond.1.1, hcond.1.2⟩
    next hcond =>
      exact key [] _ (List.append_nil _).symm (by simp)

theorem step3_generated_ok (env : Env) (f : Point → ℚ) (bf : Point → Bool)
    (b : Rect) (k : ℤ) (st : St) :
    ∃ t, (step3 env f bf b k st).outputList = st.outputList ++ t ∧
      ∀ p ∈ t, b.contains p = true ∧ bf p = true := by
  unfold step3
  exact spawn3_generated_ok env bf b _ _ k.toNat _

theorem loop3_generated_ok (env : Env) (f : Point → ℚ) (bf : Point → Bool)
    (b : Rect) (k : ℤ) :
    ∀ fuel (st : St) (out : List Point),
      loop3 env f bf b k fuel st = some out →
      ∃ t, out = st.outputList ++ t ∧ ∀ p ∈ t, b.contains p = true ∧ bf p = true := by
  intro fuel
  induction fuel with
  | zero =>
    intro st out h
    rw [loop3] at h
    by_cases hb : st.processingList.isEmpty = true
    · rw [if_pos hb] at h
      exact ⟨[], by simpa using (Option.some_injective _ h).symm, by simp⟩
    · rw [if_neg hb] at h
      exact absurd h (by simp)
  | succ n ih =>
    intro st out h
    rw [loop3] at h
    by_cases hb : st.processingList.isEmpty = true
    · rw [if_pos hb] at h
      exact ⟨[], by simpa using (Option.some_injective _ h).symm, by simp⟩
    · rw [if_neg hb] at h
      obtain ⟨t1, ht1, hp1⟩ := ih _ _ h
      obtain ⟨t2, ht2, hp2⟩ := step3_generated_ok env f bf b k st
      refine ⟨t2 ++ t1, by rw [ht1, ht2, List.append_assoc], ?_⟩
      intro p hp
      rcases List.mem_append.mp hp with hmem | hmem
      · exact hp2 p hmem
      · exact hp1 p hmem

/-- C2(amended): the candidate-acceptance test guards only the generated
    points: every terminating run's output is the unchecked base prefix
    (initialSet, or the seeded center) followed by points that all lie within
    bounds and, in the predicate variant, satisfy boundsFunction.  Points of
    initialSet are copied to the output with no containment or predicate
    check (see the counterexample). -/
theorem c2_generated_points_contained :
    (∀ (env : Env) (s : ℚ) (bounds : Rect) (initialSet : List Point) (k : ℤ)
        (fuel : ℕ) (out : List Point),
        poissonDiskDistribution1 env s bounds initialSet k fuel = some out →
        ∃ t, out = baseOf bounds initialSet ++ t ∧
          ∀ p ∈ t, bounds.contains p = true) ∧
      (∀ (env : Env) (f : Point → ℚ) (bounds : Rect) (initialSet : List Point)
          (k : ℤ) (fuel : ℕ) (out : List Point),
        poissonDiskDistribution2 env f bounds initialSet k fuel = some out →
        ∃ t, out = baseOf bounds initialSet ++ t ∧
          ∀ p ∈ t, bounds.contains p = true) ∧
      (∀ (env : Env) (f : Point → ℚ) (bf : Point → Bool) (bounds : Rect)
          (initialSet : List Point) (k : ℤ) (fuel : ℕ) (out : List Point),
        poissonDiskDistribution3 env f bf bounds initialSet k fuel = some out →
        ∃ t, out = baseOf bounds initialSet ++ t ∧
          ∀ p ∈ t, bounds.contains p = true ∧ bf p = true) := by
  have core : ∀ (env : Env) (f : Point → ℚ) (bf : Point → Bool) (bounds : Rect)
      (initialSet : List Point) (k : ℤ) (fuel : ℕ) (out : List Point),
      poissonDiskDistribution3 env f bf bounds initialSet k fuel = some out →
      ∃ t, out = baseOf bounds initialSet ++ t ∧
        ∀ p ∈ t, bounds.contains p = true ∧ bf p = true := by
    intro env f bf bounds initialSet k fuel out h
    obtain ⟨t, ht, hp⟩ :=
      loop3_generated_ok env f bf bounds k fuel (initState bounds initialSet) out h
    rw [initState_outputList] at ht
    exact ⟨t, ht, hp⟩
  refine ⟨?_, ?_, core⟩
  · intro env s bounds initialSet k fuel out h
    rw [pdd1_eq_pdd3] at h
    obtain ⟨t, ht, hp⟩ := core _ _ _ _ _ _ _ _ h
    exact ⟨t, ht, fun p hmem => (hp p hmem).1⟩
  · intro env f bounds initialSet k fuel out h
    rw [pdd2_eq_pdd3] at h
    obtain ⟨t, ht, hp⟩ := core _ _ _ _ _ _ _ _ h
    exact ⟨t, ht, fun p hmem => (hp p hmem).1⟩

/-- C2 witness: the concrete three-point run; its generated points all lie
    within bounds. -/
theorem c2_witness :
    ∃ t, ([(16, 16), (20, 16), (24, 16)] : List Point) = baseOf r32 [(16, 16)] ++ t ∧
      ∀ p ∈ t, r32.contains p = true :=
  c2_generated_points_contained.1 envMono 4 r32 [(16, 16)] 1 5
    [(16, 16), (20, 16), (24, 16)] (by with_unfolding_all decide)

/-- C6 witness: a concrete terminating run whose output starts with its
    one-point initial set. -/
theorem c6_witness :
    ∃ t, ([(16, 16), (20, 16), (24, 16)] : List Point) = [(16, 16)] ++ t :=
  (c6_initial_set_is_output_head envMono r32 [(16, 16)] 1 5
      [(16, 16), (20, 16), (24, 16)] (by simp)).1 4 (by with_unfolding_all decide)

/-- C5 witness: the amended statement evaluated on the concrete run with the
    always-false predicate. -/
theorem c5_witness :
    ([r16.getCenter] : List Point).take 1 = [r16.getCenter] ∧
      ([r16.getCenter] : List Point) ≠ [] :=
  c5_center_is_unconditional env0 (fun _ => 1) (fun _ => false) r16 0 1
    [r16.getCenter] (by with_unfolding_all decide)

/-- C8(amended): output size is not monotone in k across a whole run, but
    candidate generation itself is: within one while-loop iteration the first
    k1 of k2 ≥ k1 candidates are processed identically, in all three
    variants — spawning a + b candidates is spawning a and then b more from
    the reached state. -/
theorem c8_candidate_batches_compose :
    (∀ (env : Env) (s : ℚ) (r : Rect) (c : Point) (a b2 : ℕ) (st : St),
        spawn1 env s r c (a + b2) st = spawn1 env s r c b2 (spawn1 env s r c a st)) ∧
      (∀ (env : Env) (r : Rect) (c : Point) (d : ℚ) (a b2 : ℕ) (st : St),
        spawn2 env r c d (a + b2) st = spawn2 env r c d b2 (spawn2 env r c d a st)) ∧
      (∀ (env : Env) (bf : Point → Bool) (r : Rect) (c : Point) (d : ℚ)
          (a b2 : ℕ) (st : St),
        spawn3 env bf r c d (a + b2) st = spawn3 env bf r c d b2 (spawn3 env bf r c d a st)) :=
  ⟨fun env s r c a b2 st => spawn1_additive env s r c a b2 st,
   fun env r c d a b2 st => spawn2_additive env r c d a b2 st,
   fun env bf r c d a b2 st => spawn3_additive env bf r c d a b2 st⟩

/-- C3 counterexample: the grid over [-4,12]² stores (15/4, 1/2), which lies
    strictly within radius 3/2 of the query (5, 1/2), yet hasNeighbors
    returns false: the scan window is computed from the truncated radius and
    truncated coordinates and skips the stored point's cell. -/
theorem c3_counterexample :
    (15 / 4, 1 / 2) ∈ gC3.stored ∧
      sqDist (5, 1 / 2) (15 / 4, 1 / 2) < (3 / 2 : ℚ) * (3 / 2) ∧
      gC3.hasNeighbors (5, 1 / 2) (3 / 2) = false := by with_unfolding_all decide

/-! ### Cast and indexing helpers -/

theorem truncQ_of_nonneg {q : ℚ} (h : 0 ≤ q) : truncQ q = ⌊q⌋ := if_pos h

theorem truncQ_zero : truncQ 0 = 0 := by
  rw [truncQ_of_nonneg le_rfl, Int.floor_zero]

theorem truncQ_natCast (n : ℕ) : truncQ (n : ℚ) = (n : ℤ) := by
  rw [truncQ_of_nonneg (Nat.cast_nonneg n), Int.floor_natCast]

theorem wrap32_eq_self {z : ℤ} (h0 : 0 ≤ z) (h1 : z < 2 ^ 31) : wrap32 z = z := by
  unfold wrap32
  rw [Int.emod_eq_of_lt (by omega) (by omega)]
  omega

theorem floor_div_natCast (q : ℚ) (n : ℕ) (hn : 0 < n) :
    ⌊q / (n : ℚ)⌋ = ⌊q⌋ / (n : ℤ) := by
  have hq : (0 : ℚ) < (n : ℚ) := by exact_mod_cast hn
  have hz : (0 : ℤ) < (n : ℤ) := by exact_mod_cast hn
  have key : ∀ z : ℤ, z ≤ ⌊q / (n : ℚ)⌋ ↔ z ≤ ⌊q⌋ / (n : ℤ) := by
    intro z
    rw [Int.le_floor, le_div_iff₀ hq, Int.le_ediv_iff_mul_le hz, Int.le_floor]
    push_cast
    exact Iff.rfl
  have h1 := (key ⌊q / (n : ℚ)⌋).mp le_rfl
  have h2 := (key (⌊q⌋ / (n : ℤ))).mpr le_rfl
  omega

theorem floor_le_natCast {q : ℚ} {n : ℕ} (h : q ≤ (n : ℚ)) : ⌊q⌋ ≤ (n : ℤ) := by
  have h2 := Int.floor_le_floor h
  rwa [Int.floor_natCast] at h2

theorem mem_intRange {lo hi z : ℤ} : z ∈ intRange lo hi ↔ lo ≤ z ∧ z < hi := by
  unfold intRange
  rw [List.mem_map]
  constructor
  · rintro ⟨i, hi1, rfl⟩
    rw [List.mem_range] at hi1
    omega
  · intro hz
    refine ⟨(z - lo).toNat, ?_, ?_⟩
    · rw [List.mem_range]
      omega
    · omega

theorem getD_set_self {l : List (List Point)} {i : ℕ} {v : List Point}
    (h : i < l.length) : (l.set i v).getD i [] = v := by
  rw [List.getD_eq_getElem?_getD, List.getElem?_set_self h]
  rfl

theorem mem_getD_add (g : Grid) (p q : Point) (i : ℕ)
    (hmem : q ∈ g.cells.getD i []) : q ∈ (g.add p).cells.getD i [] := by
  simp only [Grid.add]
  split
  next hin =>
    simp only [List.getD_eq_getElem?_getD] at hmem ⊢
    by_cases hij : (g.flatIndexOf p).toNat = i
    · subst hij
      rw [List.getElem?_set_self (by omega)]
      simp only [Option.getD_some]
      exact List.mem_append_left _ hmem
    · rw [List.getElem?_set_ne hij]
      exact hmem
  next hin => exact hmem

theorem mem_getD_stored {g : Grid} {i : ℕ} {q : Point}
    (hq : q ∈ g.cells.getD i []) : q ∈ g.stored := by
  unfold Grid.stored
  by_cases hi : i < g.cells.length
  · have hcell : g.cells.getD i [] ∈ g.cells := by
      rw [List.getD_eq_getElem?_getD, List.getElem?_eq_getElem hi]
      exact List.getElem_mem hi
    have key : ∀ (L : List (List Point)) (c : List Point), c ∈ L → q ∈ c →
        q ∈ L.foldr (fun cl acc => cl ++ acc) [] := by
      intro L
      induction L with
      | nil => intro c hc; simp at hc
      | cons a L ih =>
        intro c hc hqc
        rw [List.foldr_cons]
        rcases List.mem_cons.mp hc with hca | hcl
        · exact List.mem_append_left _ (hca ▸ hqc)
        · exact List.mem_append_right _ (ih c hcl hqc)
    exact key _ _ hcell hq
  · rw [List.getD_eq_getElem?_getD, List.getElem?_eq_none (by omega)] at hq
    simp at hq

/-! ### Cell counts of the [0,w] × [0,h] grid -/

theorem nc8_nonneg (w : ℕ) : 0 ≤ nc8 w :=
  Int.ceil_nonneg (by positivity)

theorem nc8_pos {w : ℕ} (hw : 1 ≤ w) : 1 ≤ nc8 w := by
  have hpos : (0 : ℚ) < (w : ℚ) / 8 := by
    have : (0 : ℚ) < (w : ℚ) := by exact_mod_cast hw
    positivity
  exact Int.ceil_pos.mpr hpos

theorem nc8_eq {w : ℕ} (h8 : ¬ 8 ∣ w) : nc8 w = (w : ℤ) / 8 + 1 := by
  have hmod : w % 8 ≠ 0 := fun hc => h8 (Nat.dvd_of_mod_eq_zero hc)
  have hlo : ((w : ℤ) / 8) * 8 < (w : ℤ) := by omega
  have hhi : (w : ℤ) ≤ ((w : ℤ) / 8 + 1) * 8 := by omega
  unfold nc8
  rw [Int.ceil_eq_iff]
  constructor
  · rw [lt_div_iff₀ (by norm_num : (0 : ℚ) < 8)]
    have hc : (((w : ℤ) / 8 : ℤ) : ℚ) * 8 < ((w : ℤ) : ℚ) := by exact_mod_cast hlo
    push_cast at hc ⊢
    linarith
  · rw [div_le_iff₀ (by norm_num : (0 : ℚ) < 8)]
    have hc : ((w : ℤ) : ℚ) ≤ (((w : ℤ) / 8 + 1 : ℤ) : ℚ) * 8 := by exact_mod_cast hhi
    push_cast at hc ⊢
    linarith

theorem ediv8_sub_one {W : ℤ} (h8 : ¬ (8 : ℤ) ∣ W) : (W - 1) / 8 = W / 8 := by
  have hmod : W % 8 ≠ 0 := fun hc => h8 (Int.dvd_of_emod_eq_zero hc)
  omega

/-! ### The grid over [0,w] × [0,h] stores in-box points canonically -/

theorem resize_numCells (b : AreaI) (k : ℕ) :
    (Grid.resize b k).numCells =
      (⌈((b.x2 - b.x1 : ℤ) : ℚ) / ((2 ^ k : ℕ) : ℚ)⌉,
        ⌈((b.y2 - b.y1 : ℤ) : ℚ) / ((2 ^ k : ℕ) : ℚ)⌉) := rfl

theorem resize_offset (b : AreaI) (k : ℕ) :
    (Grid.resize b k).offset = (|b.x1|, |b.y1|) := rfl

theorem resize_bounds (b : AreaI) (k : ℕ) : (Grid.resize b k).bounds = b := rfl

theorem resize_k (b : AreaI) (k : ℕ) : (Grid.resize b k).k = k := rfl

theorem resize_cells_length (b : AreaI) (k : ℕ) :
    (Grid.resize b k).cells.length =
      ((Grid.resize b k).numCells.1 * (Grid.resize b k).numCells.2).toNat := by
  simp [Grid.resize]

theorem areaOf_rect00 (w h : ℕ) :
    areaOf (rect00 w h) = { x1 := 0, y1 := 0, x2 := (w : ℤ), y2 := (h : ℤ) } := by
  unfold areaOf rect00
  simp [truncQ_natCast, truncQ_zero]

theorem gridConf_resize (w h : ℕ) (hw : 1 ≤ w) (hh : 1 ≤ h) :
    gridConf w h (Grid.resize (areaOf (rect00 w h)) 3) := by
  rw [areaOf_rect00]
  have hcx : (⌈(((w : ℤ) - 0 : ℤ) : ℚ) / ((2 ^ 3 : ℕ) : ℚ)⌉ : ℤ) = nc8 w := by
    unfold nc8
    norm_num
  have hcy : (⌈(((h : ℤ) - 0 : ℤ) : ℚ) / ((2 ^ 3 : ℕ) : ℚ)⌉ : ℤ) = nc8 h := by
    unfold nc8
    norm_num
  have hnum : (Grid.resize { x1 := 0, y1 := 0, x2 := (w : ℤ), y2 := (h : ℤ) } 3).numCells =
      (nc8 w, nc8 h) := by
    rw [resize_numCells]
    simp only at hcx hcy ⊢
    rw [hcx, hcy]
  refine ⟨hnum, ?_, resize_bounds _ _, resize_k _ _, ?_⟩
  · rw [resize_offset]
    norm_num
  · rw [resize_cells_length, hnum]
    have hpos : 0 ≤ nc8 w * nc8 h := mul_nonneg (nc8_nonneg w) (nc8_nonneg h)
    simp only
    rw [Int.toNat_of_nonneg hpos]

theorem contains_rect00 {w h : ℕ} {p : Point} :
    (rect00 w h).contains p = true ↔ inBox w h p := by
  unfold Rect.contains rect00 inBox
  rw [decide_eq_true_eq]

theorem inBox_center (w h : ℕ) : inBox w h (rect00 w h).getCenter := by
  unfold rect00 Rect.getCenter inBox
  have hw : (0 : ℚ) ≤ (w : ℚ) := Nat.cast_nonneg w
  have hh : (0 : ℚ) ≤ (h : ℚ) := Nat.cast_nonneg h
  refine ⟨by linarith, by linarith, by linarith, by linarith⟩

theorem u32_axis {q : ℚ} (hq0 : 0 ≤ q) (hqB : q ≤ 100000) :
    wrap32 ((u32 q + 0) % 2 ^ 32 / (2 ^ 3 : ℤ)) = ⌊q⌋ / 8 := by
  have hf0 : 0 ≤ ⌊q⌋ := Int.floor_nonneg.mpr hq0
  have hfB : ⌊q⌋ ≤ 100000 := by
    have h2 := Int.floor_le_floor hqB
    have h3 : (⌊(100000 : ℚ)⌋ : ℤ) = 100000 := by norm_num
    omega
  unfold u32
  rw [truncQ_of_nonneg hq0, Int.emod_eq_of_lt hf0 (by omega), add_zero,
    Int.emod_eq_of_lt hf0 (by omega)]
  have hd0 : 0 ≤ ⌊q⌋ / (2 ^ 3 : ℤ) := Int.ediv_nonneg hf0 (by norm_num)
  have hdB : ⌊q⌋ / (2 ^ 3 : ℤ) ≤ 100000 / (2 ^ 3 : ℤ) :=
    Int.ediv_le_ediv (by norm_num) hfB
  rw [wrap32_eq_self hd0 (by omega)]
  norm_num

theorem cellOf_canon {w h : ℕ} (hwB : w ≤ 100000) (hhB : h ≤ 100000) {g : Grid}
    (hconf : gridConf w h g) {p : Point} (hp : inBox w h p) :
    g.cellOf p = (⌊p.1⌋ / 8, ⌊p.2⌋ / 8) := by
  obtain ⟨hnum, hoff, hbnd, hk, hlen⟩ := hconf
  obtain ⟨hp1, hp2, hp3, hp4⟩ := hp
  have hx : p.1 ≤ (100000 : ℚ) := le_trans hp2 (by exact_mod_cast hwB)
  have hy : p.2 ≤ (100000 : ℚ) := le_trans hp4 (by exact_mod_cast hhB)
  unfold Grid.cellOf
  rw [hoff, hk]
  simp only
  rw [u32_axis hp1 hx, u32_axis hp3 hy]

theorem floor_lt_nc8 {w : ℕ} (h8w : ¬ 8 ∣ w) {x : ℚ} (hx0 : 0 ≤ x) (hxw : x ≤ (w : ℚ)) :
    0 ≤ ⌊x⌋ / 8 ∧ ⌊x⌋ / 8 < nc8 w := by
  have hf0 : 0 ≤ ⌊x⌋ := Int.floor_nonneg.mpr hx0
  have hfw : ⌊x⌋ ≤ (w : ℤ) := floor_le_natCast hxw
  have hmono := Int.ediv_le_ediv (by norm_num : (0 : ℤ) < 8) hfw
  rw [nc8_eq h8w]
  exact ⟨Int.ediv_nonneg hf0 (by norm_num), by omega⟩

theorem flatIndexOf_canon {w h : ℕ} (h8w : ¬ 8 ∣ w) (hwB : w ≤ 100000)
    (h8h : ¬ 8 ∣ h) (hhB : h ≤ 100000) {g : Grid}
    (hconf : gridConf w h g) {p : Point} (hp : inBox w h p) :
    g.flatIndexOf p = canonFlat w p ∧ 0 ≤ canonFlat w p ∧
      canonFlat w p < (g.cells.length : ℤ) := by
  have hcell := cellOf_canon hwB hhB hconf hp
  obtain ⟨hnum, hoff, hbnd, hk, hlen⟩ := hconf
  obtain ⟨hp1, hp2, hp3, hp4⟩ := hp
  obtain ⟨hcx0, hcxlt⟩ := floor_lt_nc8 h8w hp1 hp2
  obtain ⟨hcy0, hcylt⟩ := floor_lt_nc8 h8h hp3 hp4
  have hncx : nc8 w ≤ 12501 := by
    rw [nc8_eq h8w]
    have : (w : ℤ) ≤ 100000 := by exact_mod_cast hwB
    omega
  have hcxB : ⌊p.1⌋ / 8 ≤ 12500 := by
    have hfw : ⌊p.1⌋ ≤ (w : ℤ) := floor_le_natCast hp2
    have : (w : ℤ) ≤ 100000 := by exact_mod_cast hwB
    omega
  have hcyB : ⌊p.2⌋ / 8 ≤ 12500 := by
    have hfh : ⌊p.2⌋ ≤ (h : ℤ) := floor_le_natCast hp4
    have : (h : ℤ) ≤ 100000 := by exact_mod_cast hhB
    omega
  have hflat0 : 0 ≤ canonFlat w p := by
    unfold canonFlat
    have := mul_nonneg (nc8_nonneg w) hcy0
    omega
  have hflatB : canonFlat w p < 2 ^ 31 := by
    unfold canonFlat
    have h1 : nc8 w * (⌊p.2⌋ / 8) ≤ 12501 * 12500 :=
      mul_le_mul hncx hcyB hcy0 (by norm_num)
    omega
  have hflatlen : canonFlat w p < (g.cells.length : ℤ) := by
    rw [hlen]
    unfold canonFlat
    have h1 : ⌊p.1⌋ / 8 + 1 ≤ nc8 w := by omega
    have h2 : ⌊p.2⌋ / 8 + 1 ≤ nc8 h := by omega
    nlinarith [nc8_nonneg w, nc8_nonneg h, hcx0, hcy0]
  refine ⟨?_, hflat0, hflatlen⟩
  unfold Grid.flatIndexOf
  rw [hcell, hnum]
  simp only
  unfold canonFlat
  exact wrap32_eq_self (by unfold canonFlat at hflat0; omega)
    (by unfold canonFlat at hflatB; omega)

/-- One axis of the hasNeighbors scan window: for an integer radius d and a
    domain [0,w] with w not a multiple of 8, the clamped, truncated, shifted
    window around the query coordinate a covers the stored cell of any
    coordinate b with |a - b| < d. -/
theorem scan_covers_axis {w d : ℕ} (hw : 1 ≤ w) (h8 : ¬ 8 ∣ w) (hd : 1 ≤ d)
    {a b : ℚ} (ha0 : 0 ≤ a) (haw : a ≤ (w : ℚ)) (hb0 : 0 ≤ b) (hbw : b ≤ (w : ℚ))
    (hab : |a - b| < (d : ℚ)) :
    max (min (⌊a⌋ - (d : ℤ)) ((w : ℤ) - 1)) 0 / 8 ≤ ⌊b⌋ / 8 ∧
      ⌊b⌋ / 8 < min (1 + max (min (⌊a⌋ + (d : ℤ)) ((w : ℤ) - 1)) 0 / 8) (nc8 w) := by
  have hA0 : 0 ≤ ⌊a⌋ := Int.floor_nonneg.mpr ha0
  have hAw : ⌊a⌋ ≤ (w : ℤ) := floor_le_natCast haw
  have hB0 : 0 ≤ ⌊b⌋ := Int.floor_nonneg.mpr hb0
  have hBw : ⌊b⌋ ≤ (w : ℤ) := floor_le_natCast hbw
  obtain ⟨hab1, hab2⟩ := abs_lt.mp hab
  have hcast : (((d : ℤ)) : ℚ) = (d : ℚ) := by push_cast; rfl
  have hADB : ⌊a⌋ - (d : ℤ) ≤ ⌊b⌋ := by
    have h1 : a - ((d : ℤ) : ℚ) ≤ b := by rw [hcast]; linarith
    have h2 := Int.floor_le_floor h1
    rwa [Int.floor_sub_int] at h2
  have hBAD : ⌊b⌋ ≤ ⌊a⌋ + (d : ℤ) := by
    have h1 : b ≤ a + ((d : ℤ) : ℚ) := by rw [hcast]; linarith
    have h2 := Int.floor_le_floor h1
    rwa [Int.floor_add_int] at h2
  constructor
  · exact Int.ediv_le_ediv (by norm_num)
      (max_le (le_trans (min_le_left _ _) hADB) hB0)
  · rw [lt_min_iff]
    constructor
    · have hU : ⌊b⌋ / 8 ≤ max (min (⌊a⌋ + (d : ℤ)) ((w : ℤ) - 1)) 0 / 8 := by
        by_cases hBW : ⌊b⌋ ≤ (w : ℤ) - 1
        · exact Int.ediv_le_ediv (by norm_num)
            (le_trans (le_min hBAD hBW) (le_max_left _ _))
        · have hBW2 : ⌊b⌋ = (w : ℤ) := by omega
          have h8W : ¬ (8 : ℤ) ∣ ((w : ℤ)) := fun hc => h8 (by exact_mod_cast hc)
          have hWm1 : ((w : ℤ) - 1) / 8 = (w : ℤ) / 8 := ediv8_sub_one h8W
          have hmin : min (⌊a⌋ + (d : ℤ)) ((w : ℤ) - 1) = (w : ℤ) - 1 :=
            min_eq_right (by omega)
          have hmax : max ((w : ℤ) - 1) 0 = (w : ℤ) - 1 := max_eq_left (by omega)
          rw [hmin, hmax, hWm1, hBW2]
      omega
    · rw [nc8_eq h8]
      have h2 := Int.ediv_le_ediv (by norm_num : (0 : ℤ) < 8) hBw
      omega

/-- Completeness of the neighbor query on a canonical grid over [0,w] × [0,h]
    (w, h not multiples of 8, integer radius d ≥ 1): a stored in-box point at
    squared distance below d² from an in-box query is always found. -/
theorem hasNeighbors_complete {w h d : ℕ} (hw : 1 ≤ w) (h8w : ¬ 8 ∣ w)
    (hh : 1 ≤ h) (h8h : ¬ 8 ∣ h) (hd : 1 ≤ d)
    {g : Grid} (hconf : gridConf w h g) {q p : Point}
    (hq : inBox w h q) (hp : inBox w h p)
    (hst : p ∈ g.cells.getD (canonFlat w p).toNat [])
    (hclose : sqDist q p < (d : ℚ) ^ 2) :
    g.hasNeighbors q (d : ℚ) = true := by
  obtain ⟨hnum, hoff, hbnd, hk, hlen⟩ := hconf
  obtain ⟨hq1, hq2, hq3, hq4⟩ := hq
  obtain ⟨hp1, hp2, hp3, hp4⟩ := hp
  have hd0 : (0 : ℚ) ≤ (d : ℚ) := Nat.cast_nonneg d
  have hx2 : (q.1 - p.1) ^ 2 ≤ sqDist q p := le_add_of_nonneg_right (sq_nonneg _)
  have hy2 : (q.2 - p.2) ^ 2 ≤ sqDist q p := le_add_of_nonneg_left (sq_nonneg _)
  have habx : |q.1 - p.1| < (d : ℚ) :=
    abs_lt_of_sq_lt_sq (lt_of_le_of_lt hx2 hclose) hd0
  have haby : |q.2 - p.2| < (d : ℚ) :=
    abs_lt_of_sq_lt_sq (lt_of_le_of_lt hy2 hclose) hd0
  obtain ⟨hlox, hhix⟩ := scan_covers_axis hw h8w hd hq1 hq2 hp1 hp2 habx
  obtain ⟨hloy, hhiy⟩ := scan_covers_axis hh h8h hd hq3 hq4 hp3 hp4 haby
  unfold canonFlat at hst
  unfold Grid.hasNeighbors
  rw [hnum, hoff, hbnd, hk, truncQ_natCast, truncQ_of_nonneg hq1, truncQ_of_nonneg hq3]
  simp only [show ((2 : ℤ) ^ 3) = 8 from by norm_num, add_zero]
  rw [List.any_eq_true]
  refine ⟨⌊p.2⌋ / 8, mem_intRange.mpr ⟨hloy, hhiy⟩, ?_⟩
  rw [List.any_eq_true]
  refine ⟨⌊p.1⌋ / 8, mem_intRange.mpr ⟨hlox, hhix⟩, ?_⟩
  rw [List.any_eq_true]
  refine ⟨p, hst, ?_⟩
  rw [decide_eq_true_eq, ← pow_two]
  exact hclose

theorem add_canon {w h : ℕ} (h8w : ¬ 8 ∣ w) (hwB : w ≤ 100000)
    (h8h : ¬ 8 ∣ h) (hhB : h ≤ 100000) {g : Grid}
    (hconf : gridConf w h g) {p : Point} (hp : inBox w h p) :
    gridConf w h (g.add p) ∧
      (∀ q i, q ∈ g.cells.getD i [] → q ∈ (g.add p).cells.getD i []) ∧
      p ∈ (g.add p).cells.getD (canonFlat w p).toNat [] := by
  obtain ⟨hfe, hc0, hclt⟩ := flatIndexOf_canon h8w hwB h8h hhB hconf hp
  have hcond : 0 ≤ g.flatIndexOf p ∧ g.flatIndexOf p < (g.cells.length : ℤ) := by
    rw [hfe]
    exact ⟨hc0, hclt⟩
  refine ⟨?_, fun q i hq => mem_getD_add g p q i hq, ?_⟩
  · obtain ⟨hnum, hoff, hbnd, hk, hlen⟩ := hconf
    unfold Grid.add
    rw [if_pos hcond]
    exact ⟨hnum, hoff, hbnd, hk, by simpa using hlen⟩
  · unfold Grid.add
    rw [if_pos hcond, hfe]
    have htn : (canonFlat w p).toNat < g.cells.length := by omega
    rw [getD_set_self htn]
    exact List.mem_append_right _ (List.mem_singleton.mpr rfl)

theorem hasNeighbors_sound (g : Grid) (p : Point) (r : ℚ)
    (h : g.hasNeighbors p r = true) : ∃ q, q ∈ g.stored ∧ sqDist p q < r * r := by
  unfold Grid.hasNeighbors at h
  simp only [List.any_eq_true, decide_eq_true_eq] at h
  obtain ⟨y, -, x, -, c, hcmem, hlt⟩ := h
  exact ⟨c, mem_getD_stored hcmem, hlt⟩

theorem foldl_add_canon {w h : ℕ} (h8w : ¬ 8 ∣ w) (hwB : w ≤ 100000)
    (h8h : ¬ 8 ∣ h) (hhB : h ≤ 100000) :
    ∀ (ps : List Point) (g : Grid), gridConf w h g → (∀ x ∈ ps, inBox w h x) →
      gridConf w h (ps.foldl Grid.add g) ∧
        (∀ q i, q ∈ g.cells.getD i [] → q ∈ (ps.foldl Grid.add g).cells.getD i []) ∧
        (∀ p2 ∈ ps, p2 ∈ (ps.foldl Grid.add g).cells.getD (canonFlat w p2).toNat []) := by
  intro ps
  induction ps with
  | nil => intro g hg _; exact ⟨hg, fun q i hq => hq, by simp⟩
  | cons a ps ih =>
    intro g hg hbox
    have ha : inBox w h a := hbox a (List.mem_cons_self a ps)
    obtain ⟨hconf2, hpres, hmem⟩ := add_canon h8w hwB h8h hhB hg ha
    obtain ⟨ih1, ih2, ih3⟩ :=
      ih (g.add a) hconf2 (fun x hx => hbox x (List.mem_cons_of_mem a hx))
    rw [List.foldl_cons]
    refine ⟨ih1, fun q i hq => ih2 q i (hpres q i hq), ?_⟩
    intro p2 hp2
    rcases List.mem_cons.mp hp2 with rfl | hp2m
    · exact ih2 _ _ hmem
    · exact ih3 p2 hp2m

/-- C3(amended): hasNeighbors returns true only if some stored point lies at
    squared distance strictly below radius² (soundness, unconditionally); the
    converse (never missing a stored point within the radius) fails in
    general because the scan window truncates the radius and the coordinates
    (see the counterexample), but holds for grids over a box [0,w] × [0,h]
    anchored at the origin with w, h not multiples of 8 and an integer
    radius, with all stored points and the query inside the box. -/
theorem c3_sound_and_guarded_complete :
    (∀ (g : Grid) (p : Point) (r : ℚ), g.hasNeighbors p r = true →
        ∃ q, q ∈ g.stored ∧ sqDist p q < r * r) ∧
      (∀ w h d : ℕ, 1 ≤ w → ¬ 8 ∣ w → w ≤ 100000 → 1 ≤ h → ¬ 8 ∣ h → h ≤ 100000 →
        1 ≤ d → ∀ (ps : List Point) (q : Point), (∀ x ∈ ps, inBox w h x) →
        inBox w h q → ∀ p ∈ ps, sqDist q p < (d : ℚ) ^ 2 →
        (ps.foldl Grid.add (Grid.resize (areaOf (rect00 w h)) 3)).hasNeighbors q
          (d : ℚ) = true) := by
  refine ⟨hasNeighbors_sound, ?_⟩
  intro w h d hw h8w hwB hh h8h hhB hd ps q hbox hq p hpmem hclose
  obtain ⟨hconf, -, hcanon⟩ :=
    foldl_add_canon h8w hwB h8h hhB ps _ (gridConf_resize w h hw hh) hbox
  exact hasNeighbors_complete hw h8w hh h8h hd hconf hq (hbox p hpmem)
    (hcanon p hpmem) hclose

/-- C3 witness: both directions at concrete inputs: the grid over [0,16]²
    holding (8,8) answers true at radius 1, producing a stored point within
    the radius; and the grid over [0,9]² holding (1,1) is forced to answer
    true for the query (3/2, 1) at radius 1. -/
theorem c3_witness :
    (∃ q2, q2 ∈ g88.stored ∧ sqDist (8, 8) q2 < 1 * 1) ∧
      ([((1 : ℚ), (1 : ℚ))].foldl Grid.add
          (Grid.resize (areaOf (rect00 9 9)) 3)).hasNeighbors (3 / 2, 1)
        ((1 : ℕ) : ℚ) = true := by
  constructor
  · exact c3_sound_and_guarded_complete.1 g88 (8, 8) 1 (by with_unfolding_all decide)
  · refine c3_sound_and_guarded_complete.2 9 9 1 (by norm_num) (by norm_num)
      (by norm_num) (by norm_num) (by norm_num) (by norm_num) (by norm_num)
      [((1 : ℚ), (1 : ℚ))] (3 / 2, 1) ?_ ?_ (1, 1) (by simp) ?_
    · intro x hx
      rw [List.mem_singleton.mp hx]
      unfold inBox
      norm_num
    · unfold inBox
      norm_num
    · unfold sqDist
      norm_num

/-- The per-axis index Grid::add computes, for a non-negative coordinate and
    a non-negative offset in int range: the uint32 cast truncates the
    coordinate first, and the result is the integer (⌊q⌋ + off) / 8, which
    coincides with the specified floor((q + off) / 8). -/
theorem add_axis_formula {q : ℚ} {off : ℤ} (hq0 : 0 ≤ q) (hqB : q ≤ 50000)
    (hoff0 : 0 ≤ off) (hoffB : off ≤ 50000) :
    wrap32 ((u32 q + off) % 2 ^ 32 / (2 ^ 3 : ℤ)) = (⌊q⌋ + off) / 8 ∧
      (0 ≤ (⌊q⌋ + off) / 8 ∧ (⌊q⌋ + off) / 8 ≤ 12500) ∧
      ⌊(q + (off : ℚ)) / ((8 : ℕ) : ℚ)⌋ = (⌊q⌋ + off) / 8 := by
  have hf0 : 0 ≤ ⌊q⌋ := Int.floor_nonneg.mpr hq0
  have hfB : ⌊q⌋ ≤ 50000 := by
    have h2 := Int.floor_le_floor hqB
    have h3 : (⌊(50000 : ℚ)⌋ : ℤ) = 50000 := by norm_num
    omega
  have hsum0 : 0 ≤ ⌊q⌋ + off := by omega
  have hdiv0 : 0 ≤ (⌊q⌋ + off) / 8 := Int.ediv_nonneg hsum0 (by norm_num)
  have hdivB : (⌊q⌋ + off) / 8 ≤ 12500 := by
    have h2 := Int.ediv_le_ediv (by norm_num : (0 : ℤ) < 8)
      (show ⌊q⌋ + off ≤ 100000 by omega)
    omega
  refine ⟨?_, ⟨hdiv0, hdivB⟩, ?_⟩
  · unfold u32
    rw [truncQ_of_nonneg hq0, Int.emod_eq_of_lt hf0 (by omega),
      Int.emod_eq_of_lt hsum0 (by omega)]
    have h8 : ((2 : ℤ) ^ 3) = 8 := by norm_num
    rw [h8]
    exact wrap32_eq_self hdiv0 (by omega)
  · rw [floor_div_natCast (q + (off : ℚ)) 8 (by norm_num), Int.floor_add_int]
    norm_num

/-- C4(amended): a retained insertion updates exactly one cell, appending the
    point to it; the cell's per-axis index truncates the coordinate toward
    zero before adding the offset, which agrees with the specified
    floor((coordinate + offset)/cellSize) whenever the coordinates are
    non-negative (the counterexample shows they differ for negative
    fractional coordinates). -/
theorem c4_add_updates_one_cell :
    ∀ (g : Grid) (p : Point),
      (0 ≤ g.flatIndexOf p → g.flatIndexOf p < (g.cells.length : ℤ) →
        (g.add p).cells = g.cells.set (g.flatIndexOf p).toNat
          (g.cells.getD (g.flatIndexOf p).toNat [] ++ [p])) ∧
      (0 ≤ p.1 → p.1 ≤ 50000 → 0 ≤ p.2 → p.2 ≤ 50000 →
        0 ≤ g.offset.1 → g.offset.1 ≤ 50000 → 0 ≤ g.offset.2 → g.offset.2 ≤ 50000 →
        g.k = 3 → g.cellSize = 8 → 0 ≤ g.numCells.1 → g.numCells.1 ≤ 8192 →
        g.flatIndexOf p = specCellIndex g p) := by
  intro g p
  constructor
  · intro h1 h2
    simp only [Grid.add]
    rw [if_pos ⟨h1, h2⟩]
  · intro hp1 hp2 hp3 hp4 ho1 ho2 ho3 ho4 hk hcs hn1 hn2
    obtain ⟨hxe, ⟨hx0, hxB⟩, hxs⟩ := add_axis_formula hp1 hp2 ho1 ho2
    obtain ⟨hye, ⟨hy0, hyB⟩, hys⟩ := add_axis_formula hp3 hp4 ho3 ho4
    unfold Grid.flatIndexOf Grid.cellOf specCellIndex
    rw [hk, hcs]
    dsimp only
    rw [hxe, hye]
    have h0 : 0 ≤ (⌊p.1⌋ + g.offset.1) / 8 + g.numCells.1 * ((⌊p.2⌋ + g.offset.2) / 8) := by
      have := mul_nonneg hn1 hy0
      omega
    have hB : (⌊p.1⌋ + g.offset.1) / 8 + g.numCells.1 * ((⌊p.2⌋ + g.offset.2) / 8) <
        2 ^ 31 := by
      have h1 : g.numCells.1 * ((⌊p.2⌋ + g.offset.2) / 8) ≤ 8192 * 12500 :=
        mul_le_mul hn2 hyB hy0 (by norm_num)
      omega
    rw [wrap32_eq_self h0 hB, hxs, hys]

/-- C4 witness: the concrete grid over [0,16]² with the point (3/2, 1):
    retained in its single cell, whose index matches the specified formula. -/
theorem c4_witness :
    (g16.add (3 / 2, 1)).cells = g16.cells.set (g16.flatIndexOf (3 / 2, 1)).toNat
        (g16.cells.getD (g16.flatIndexOf (3 / 2, 1)).toNat [] ++ [(3 / 2, 1)]) ∧
      g16.flatIndexOf (3 / 2, 1) = specCellIndex g16 (3 / 2, 1) := by
  constructor
  · exact (c4_add_updates_one_cell g16 (3 / 2, 1)).1 (by with_unfolding_all decide)
      (by with_unfolding_all decide)
  · exact (c4_add_updates_one_cell g16 (3 / 2, 1)).2 (by norm_num) (by norm_num)
      (by norm_num) (by norm_num) (by with_unfolding_all decide)
      (by with_unfolding_all decide) (by with_unfolding_all decide)
      (by with_unfolding_all decide) (by with_unfolding_all decide)
      (by with_unfolding_all decide) (by with_unfolding_all decide)
      (by with_unfolding_all decide)

/-! ### The separation invariant (C1) -/

theorem sepOK_snoc (sepFn : Point → ℚ) :
    ∀ (gen : List Point) (base pars : List Point) (q c : Point),
      sepOK sepFn base gen pars →
      (∀ p ∈ base ++ gen, (sepFn c) ^ 2 ≤ sqDist p q) →
      sepOK sepFn base (gen ++ [q]) (pars ++ [c]) := by
  intro gen
  induction gen with
  | nil =>
    intro base pars q c hok hfar
    cases pars with
    | nil =>
      refine ⟨?_, trivial⟩
      intro p hp
      exact hfar p (by simpa using hp)
    | cons c0 pars => exact absurd hok (by simp [sepOK])
  | cons g0 gen ih =>
    intro base pars q c hok hfar
    cases pars with
    | nil => exact absurd hok (by simp [sepOK])
    | cons c0 pars =>
      obtain ⟨h1, h2⟩ := hok
      refine ⟨h1, ih (base ++ [g0]) pars q c h2 ?_⟩
      intro p hp
      apply hfar
      rw [List.append_cons]
      exact hp

theorem runInv_accept {w h : ℕ} (hw : 1 ≤ w) (h8w : ¬ 8 ∣ w) (hwB : w ≤ 100000)
    (hh : 1 ≤ h) (h8h : ¬ 8 ∣ h) (hhB : h ≤ 100000)
    {sepFn : Point → ℚ} (hsep : intSep sepFn) {base : List Point} {st : StT}
    (hst : runInv w h sepFn base st) (center np : Point) (pl : List Point)
    (nf2 ni2 : ℕ) (hcont : (rect00 w h).contains np = true)
    (hnb : st.grid.hasNeighbors np (sepFn center) = false) :
    runInv w h sepFn base
      { processingList := pl, outputList := st.outputList ++ [np],
        grid := st.grid.add np, nf := nf2, ni := ni2,
        parents := st.parents ++ [center] } := by
  obtain ⟨hconf, hbox, hstore, gen, hout, hok⟩ := hst
  have hnp : inBox w h np := contains_rect00.mp hcont
  obtain ⟨hconf2, hpres, hmem⟩ := add_canon h8w hwB h8h hhB hconf hnp
  refine ⟨hconf2, ?_, ?_, gen ++ [np], ?_, ?_⟩
  · intro p hp
    rcases List.mem_append.mp hp with hold | hnew
    · exact hbox p hold
    · rw [List.mem_singleton.mp hnew]
      exact hnp
  · intro p hp
    rcases List.mem_append.mp hp with hold | hnew
    · exact hpres _ _ (hstore p hold)
    · rw [List.mem_singleton.mp hnew]
      exact hmem
  · rw [hout, List.append_assoc]
  · apply sepOK_snoc sepFn gen base st.parents np center hok
    intro p hp
    rw [← hout] at hp
    obtain ⟨dN, hd1, hdEq⟩ := hsep center
    rw [hdEq]
    by_contra hlt
    push_neg at hlt
    have hcomp := hasNeighbors_complete hw h8w hh h8h hd1 hconf hnp (hbox p hp)
      (hstore p hp) (by rw [sqDist_comm]; exact hlt)
    rw [hdEq, hcomp] at hnb
    exact absurd hnb (by simp)

theorem runInv_spawn {w h : ℕ} (hw : 1 ≤ w) (h8w : ¬ 8 ∣ w) (hwB : w ≤ 100000)
    (hh : 1 ≤ h) (h8h : ¬ 8 ∣ h) (hhB : h ≤ 100000)
    {sepFn : Point → ℚ} (hsep : intSep sepFn) (env : Env) (bf : Point → Bool)
    (base : List Point) (center : Point) :
    ∀ (n : ℕ) (st : StT), runInv w h sepFn base st →
      runInv w h sepFn base
        (spawn3T env bf (rect00 w h) center (sepFn center) n st) := by
  intro n
  induction n with
  | zero => intro st hst; exact hst
  | succ n ih =>
    intro st hst
    simp only [spawn3T]
    split
    next hcond =>
      simp only [Bool.and_eq_true, Bool.not_eq_true'] at hcond
      exact ih _ (runInv_accept hw h8w hwB hh h8h hhB hsep hst center _ _ _ _
        hcond.1.1 hcond.2)
    next hcond =>
      exact ih _ hst

theorem runInv_step {w h : ℕ} (hw : 1 ≤ w) (h8w : ¬ 8 ∣ w) (hwB : w ≤ 100000)
    (hh : 1 ≤ h) (h8h : ¬ 8 ∣ h) (hhB : h ≤ 100000)
    {sepFn : Point → ℚ} (hsep : intSep sepFn) (env : Env) (bf : Point → Bool)
    (base : List Point) (k : ℤ) (st : StT) (hst : runInv w h sepFn base st) :
    runInv w h sepFn base (step3T env sepFn bf (rect00 w h) k st) := by
  unfold step3T
  exact runInv_spawn hw h8w hwB hh h8h hhB hsep env bf base _ k.toNat _ hst

theorem loop3T_inv {w h : ℕ} (hw : 1 ≤ w) (h8w : ¬ 8 ∣ w) (hwB : w ≤ 100000)
    (hh : 1 ≤ h) (h8h : ¬ 8 ∣ h) (hhB : h ≤ 100000)
    {sepFn : Point → ℚ} (hsep : intSep sepFn) (env : Env) (bf : Point → Bool)
    (base : List Point) (k : ℤ) :
    ∀ (fuel : ℕ) (st : StT), runInv w h sepFn base st →
      ∀ (out pars : List Point),
        loop3T env sepFn bf (rect00 w h) k fuel st = some (out, pars) →
        ∃ gen, out = base ++ gen ∧ sepOK sepFn base gen pars := by
  intro fuel
  induction fuel with
  | zero =>
    intro st hst out pars hrun
    rw [loop3T] at hrun
    by_cases hb : st.processingList.isEmpty = true
    · rw [if_pos hb] at hrun
      obtain ⟨heq1, heq2⟩ := Prod.mk.injEq .. ▸ Option.some_injective _ hrun
      obtain ⟨gen, hout, hok⟩ := hst.2.2.2
      exact ⟨gen, heq1 ▸ hout, heq2 ▸ hok⟩
    · rw [if_neg hb] at hrun
      exact absurd hrun (by simp)
  | succ n ih =>
    intro st hst out pars hrun
    rw [loop3T] at hrun
    by_cases hb : st.processingList.isEmpty = true
    · rw [if_pos hb] at hrun
      obtain ⟨heq1, heq2⟩ := Prod.mk.injEq .. ▸ Option.some_injective _ hrun
      obtain ⟨gen, hout, hok⟩ := hst.2.2.2
      exact ⟨gen, heq1 ▸ hout, heq2 ▸ hok⟩
    · rw [if_neg hb] at hrun
      exact ih _ (runInv_step hw h8w hwB hh h8h hhB hsep env bf base k st hst)
        out pars hrun

theorem runInv_init {w h : ℕ} (hw : 1 ≤ w) (h8w : ¬ 8 ∣ w) (hwB : w ≤ 100000)
    (hh : 1 ≤ h) (h8h : ¬ 8 ∣ h) (hhB : h ≤ 100000) (sepFn : Point → ℚ)
    (initialSet : List Point) (hinit : ∀ p ∈ initialSet, inBox w h p) :
    runInv w h sepFn (baseOf (rect00 w h) initialSet)
      (initStateT (rect00 w h) initialSet) := by
  have hbase : ∀ p ∈ baseOf (rect00 w h) initialSet, inBox w h p := by
    unfold baseOf
    by_cases he : initialSet.isEmpty = true
    · rw [if_pos he]
      intro p hp
      rw [List.mem_singleton.mp hp]
      exact inBox_center w h
    · rw [if_neg he]
      exact hinit
  have hgrid : (initStateT (rect00 w h) initialSet).grid =
      (baseOf (rect00 w h) initialSet).foldl Grid.add
        (Grid.resize (areaOf (rect00 w h)) 3) := initState_grid _ _
  have hout : (initStateT (rect00 w h) initialSet).outputList =
      baseOf (rect00 w h) initialSet := initState_outputList _ _
  obtain ⟨hconf, hpres, hcanon⟩ := foldl_add_canon h8w hwB h8h hhB
    (baseOf (rect00 w h) initialSet) _ (gridConf_resize w h hw hh) hbase
  refine ⟨?_, ?_, ?_, [], ?_, trivial⟩
  · rw [hgrid]
    exact hconf
  · rw [hout]
    exact hbase
  · rw [hout, hgrid]
    exact hcanon
  · rw [hout, List.append_nil]

/-- C1(amended): the minimum-separation invariant holds for generated points
    under the conditions that make the grid scan exact: the domain is the
    box [0,w] × [0,h] with w, h positive, not multiples of 8 and at most
    100000, every separation in force is a positive integer, and initialSet
    lies inside the box.  Then, in each variant, every terminating run is
    refined by its parent-traced twin, and each generated point is at
    distance at least the separation evaluated at its recorded parent from
    every point output before it (sepOK).  Pairs of initial points are not
    constrained (see the counterexample). -/
theorem c1_generated_points_separated :
    ∀ (w h : ℕ), 1 ≤ w → ¬ 8 ∣ w → w ≤ 100000 → 1 ≤ h → ¬ 8 ∣ h → h ≤ 100000 →
    ∀ (env : Env) (initialSet : List Point), (∀ p ∈ initialSet, inBox w h p) →
    ∀ (k : ℤ) (fuel : ℕ) (out : List Point),
      ((∀ (s : ℚ), (∃ n : ℕ, 1 ≤ n ∧ s = (n : ℚ)) →
          poissonDiskDistribution1 env s (rect00 w h) initialSet k fuel = some out →
          ∃ pars gen,
            poissonDiskDistribution3T env (fun _ => s) (fun _ => true) (rect00 w h)
              initialSet k fuel = some (out, pars) ∧
            out = baseOf (rect00 w h) initialSet ++ gen ∧
            sepOK (fun _ => s) (baseOf (rect00 w h) initialSet) gen pars) ∧
        (∀ (sepFn : Point → ℚ), intSep sepFn →
          poissonDiskDistribution2 env sepFn (rect00 w h) initialSet k fuel = some out →
          ∃ pars gen,
            poissonDiskDistribution3T env sepFn (fun _ => true) (rect00 w h)
              initialSet k fuel = some (out, pars) ∧
            out = baseOf (rect00 w h) initialSet ++ gen ∧
            sepOK sepFn (baseOf (rect00 w h) initialSet) gen pars) ∧
        (∀ (sepFn : Point → ℚ) (bf : Point → Bool), intSep sepFn →
          poissonDiskDistribution3 env sepFn bf (rect00 w h) initialSet k fuel =
            some out →
          ∃ pars gen,
            poissonDiskDistribution3T env sepFn bf (rect00 w h) initialSet k fuel =
              some (out, pars) ∧
            out = baseOf (rect00 w h) initialSet ++ gen ∧
            sepOK sepFn (baseOf (rect00 w h) initialSet) gen pars)) := by
  intro w h hw h8w hwB hh h8h hhB env initialSet hinit k fuel out
  have core : ∀ (sepFn : Point → ℚ) (bf : Point → Bool), intSep sepFn →
      poissonDiskDistribution3 env sepFn bf (rect00 w h) initialSet k fuel =
        some out →
      ∃ pars gen,
        poissonDiskDistribution3T env sepFn bf (rect00 w h) initialSet k fuel =
          some (out, pars) ∧
        out = baseOf (rect00 w h) initialSet ++ gen ∧
        sepOK sepFn (baseOf (rect00 w h) initialSet) gen pars := by
    intro sepFn bf hsep hrun
    have hmap : (poissonDiskDistribution3T env sepFn bf (rect00 w h) initialSet
        k fuel).map Prod.fst = some out := by
      unfold poissonDiskDistribution3T
      rw [loop3T_map_fst]
      exact hrun
    obtain ⟨pr, hpr, hfst⟩ := Option.map_eq_some'.mp hmap
    obtain ⟨gen, hout, hok⟩ := loop3T_inv hw h8w hwB hh h8h hhB hsep env bf
      (baseOf (rect00 w h) initialSet) k fuel _
      (runInv_init hw h8w hwB hh h8h hhB sepFn initialSet hinit) pr.1 pr.2 hpr
    refine ⟨pr.2, gen, ?_, by rw [← hfst]; exact hout, hok⟩
    rw [hpr, ← hfst]
  refine ⟨?_, ?_, core⟩
  · intro s hs hrun
    rw [pdd1_eq_pdd3] at hrun
    exact core (fun _ => s) (fun _ => true) (fun _ => hs) hrun
  · intro sepFn hsep hrun
    rw [pdd2_eq_pdd3] at hrun
    exact core sepFn (fun _ => true) hsep hrun

/-- C1 witness: the one-point run over [0,9]² (k = 0, empty initialSet)
    instantiates the amended separation theorem. -/
theorem c1_witness :
    ∃ pars gen,
      poissonDiskDistribution3T env0 (fun _ => (1 : ℚ)) (fun _ => true)
        (rect00 9 9) [] 0 1 = some ([((9 : ℚ) / 2, (9 : ℚ) / 2)], pars) ∧
      ([((9 : ℚ) / 2, (9 : ℚ) / 2)] : List Point) =
        baseOf (rect00 9 9) [] ++ gen ∧
      sepOK (fun _ => (1 : ℚ)) (baseOf (rect00 9 9) []) gen pars :=
  (c1_generated_points_separated 9 9 (by norm_num) (by decide) (by norm_num)
      (by norm_num) (by decide) (by norm_num) env0 [] (by simp) 0 1
      [((9 : ℚ) / 2, (9 : ℚ) / 2)]).2.2 (fun _ => (1 : ℚ)) (fun _ => true)
    (fun _ => ⟨1, le_rfl, by norm_num⟩) (by with_unfolding_all decide)

end PDD
